import Mathlib

/-!
Verification of the multi-dimensional partner-evaluation core
(`src/evaluation`): the planner's strategy construction
(`planner.py`), the supervisor's score aggregation, ranking and
refinement (`supervisor.py`), and the orchestrator's dimension fan-out
(`orchestrator.py`).

Python `float` values are embedded as rationals (`ℚ`), Python `dict`s
keyed by strings as association lists that preserve insertion order
(later writes to the same key overwrite, so lookups take the last
matching entry), and Python's stable `sorted` as insertion sort with
the before-relation induced by the sort key.  The data-model module
(`models.py`) is not present in the source tree; the handful of
accessors the present code calls on it are modelled from the spec and
marked as such in their doc comments.
-/

namespace PartnerScope

/-- The fixed enumeration of evaluation dimensions.  `models.py` is
missing from the tree; the ten members are taken from the planner's
system prompt, which lists them by their enum values. -/
inductive EvaluationDimension where
  | market_compatibility
  | financial_health
  | technical_synergy
  | operational_capacity
  | geographic_coverage
  | strategic_alignment
  | cultural_fit
  | resource_complementarity
  | growth_potential
  | risk_profile
deriving DecidableEq, Repr, Inhabited

/-- Parsing a dimension name, as `EvaluationDimension(dim_data["dimension"])`
does: a name outside the enumeration raises `ValueError`, modelled as
`none`. -/
def dimensionFromString? (s : String) : Option EvaluationDimension :=
  match s with
  | "market_compatibility" => some .market_compatibility
  | "financial_health" => some .financial_health
  | "technical_synergy" => some .technical_synergy
  | "operational_capacity" => some .operational_capacity
  | "geographic_coverage" => some .geographic_coverage
  | "strategic_alignment" => some .strategic_alignment
  | "cultural_fit" => some .cultural_fit
  | "resource_complementarity" => some .resource_complementarity
  | "growth_potential" => some .growth_potential
  | "risk_profile" => some .risk_profile
  | _ => none

/-- `DimensionWeight` dataclass (spec §3): dimension, weight, priority,
rationale. -/
structure DimensionWeight where
  dimension : EvaluationDimension
  weight : ℚ
  priority : ℤ
  rationale : String
deriving DecidableEq, Repr, Inhabited

/-- `EvaluationStrategy` dataclass (spec §3 plus the fields the code
reads: `total_candidates`, `top_k`, `confirmed_by_user`,
`user_modifications`). -/
structure EvaluationStrategy where
  dimensions : List DimensionWeight
  total_candidates : ℕ
  top_k : ℕ
  exclusion_criteria : List String
  inclusion_criteria : List String
  confirmed_by_user : Bool
  user_modifications : List String
deriving DecidableEq, Repr, Inhabited

/-- Modelled from the spec: `models.py` is absent from the source tree.
Per spec §3 a strategy carries one `DimensionWeight` per dimension, so
the accessor `strategy.get_dimension_weight(dimension)` used by
`SupervisorAgent._compute_weighted_scores` returns the weight recorded
for that dimension, and `0` for a dimension the strategy does not
carry. -/
def EvaluationStrategy.get_dimension_weight
    (s : EvaluationStrategy) (d : EvaluationDimension) : ℚ :=
  match s.dimensions.find? (fun dw => dw.dimension = d) with
  | some dw => dw.weight
  | none => 0

/-- `DimensionScore` dataclass (spec §3). -/
structure DimensionScore where
  dimension : EvaluationDimension
  score : ℚ
  confidence : ℚ
  evidence : List String
  reasoning : String
  data_sources : List String
deriving DecidableEq, Repr, Inhabited

/-- A candidate, an opaque mapping of which the aggregation code reads
the keys `id`, `company_name` and `name` (each possibly absent).
`py_id` stands for `str(id(c))`, the CPython object-identity fallback
key, unique per candidate object. -/
structure Candidate where
  id? : Option String
  company_name? : Option String
  name? : Option String
  py_id : String
deriving DecidableEq, Repr, Inhabited

/-- The dict key used for `candidate_lookup`:
`c.get("id", c.get("company_name", str(id(c))))`. -/
def Candidate.key (c : Candidate) : String :=
  c.id?.getD (c.company_name?.getD c.py_id)

/-- The display name used by the name-matching fallback:
`c.get("company_name", c.get("name", ""))`. -/
def Candidate.displayName (c : Candidate) : String :=
  c.company_name?.getD (c.name?.getD "")

/-- `candidate_lookup[cid]`: the dict is built by inserting each
candidate under its key in list order, so a later candidate with the
same key overwrites an earlier one; lookup therefore returns the last
match. -/
def candidateLookup (cands : List Candidate) (cid : String) : Option Candidate :=
  (cands.filter (fun c => c.key = cid)).getLast?

/-- The `"score"` value of one specialized-agent result entry.
`_compute_weighted_scores` accepts a `DimensionScore` object, a dict, a
bare number, or a missing/`None` value (skipped as falsy). -/
inductive ScoreObj where
  | missing
  | obj (d : DimensionScore)
  | dict (score? : Option ℚ) (confidence? : Option ℚ)
      (evidence? : Option (List String)) (reasoning? : Option String)
  | num (q : ℚ)
deriving DecidableEq, Repr, Inhabited

/-- Python truthiness of the score object (`if score_obj:`): `None` is
falsy, a dataclass instance is truthy, a dict is truthy iff nonempty
(restricted here to the keys the code reads), a number is truthy iff
nonzero. -/
def ScoreObj.isTruthy : ScoreObj → Bool
  | .missing => false
  | .obj _ => true
  | .dict s c e r => s.isSome || c.isSome || e.isSome || r.isSome
  | .num q => decide (q ≠ 0)

/-- The `DimensionScore` extracted from a truthy score object by
`_compute_weighted_scores`: a `DimensionScore` is used as is (keeping
its own `dimension` field); a dict is read with defaults
`score = 0`, `confidence = 0.7`, `evidence = []`, `reasoning = ""`;
a bare number becomes the score with confidence `0.7`. -/
def ScoreObj.coerce (dim : EvaluationDimension) : ScoreObj → Option DimensionScore
  | .missing => none
  | .obj d => some d
  | .dict s c e r =>
      if (ScoreObj.dict s c e r).isTruthy then
        some ⟨dim, s.getD 0, c.getD (7/10), e.getD [], r.getD "", []⟩
      else none
  | .num q => if q = 0 then none else some ⟨dim, q, 7/10, [], "", []⟩

/-- One entry of a specialized agent's `scores` list, with the string
defaults of `result.get("candidate_id", "")` and
`result.get("candidate_name", "")` already applied. -/
structure ResultEntry where
  candidate_id : String
  candidate_name : String
  score : ScoreObj
deriving DecidableEq, Repr, Inhabited

/-- Candidate-id resolution in `_compute_weighted_scores`: when the
entry has no `candidate_id` but has a name, the first candidate whose
display name matches supplies `c.get("id", cname)`; with no match the
id stays `""`. -/
def resolveCid (cands : List Candidate) (e : ResultEntry) : String :=
  if e.candidate_id = "" ∧ e.candidate_name ≠ "" then
    match cands.find? (fun c => c.displayName = e.candidate_name) with
    | some c => c.id?.getD e.candidate_name
    | none => ""
  else e.candidate_id

/-- One value of the `candidate_scores` dict in
`_compute_weighted_scores`, with the fields the code adds later
(`final_score`, `rank`) initialised to `0`. -/
structure ScoreAccum where
  candidate_id : String
  candidate_name : String
  candidate_info : Option Candidate
  dimension_scores : List DimensionScore
  weighted_sum : ℚ
  total_weight : ℚ
  final_score : ℚ
  rank : ℕ
deriving DecidableEq, Repr, Inhabited

/-- The fresh `candidate_scores[cid]` entry. -/
def newAccum (cands : List Candidate) (cid cname : String) : ScoreAccum :=
  ⟨cid, cname, candidateLookup cands cid, [], 0, 0, 0, 0⟩

/-- Appending one extracted `DimensionScore` to an entry:
`weighted_sum += score * weight * confidence` and
`total_weight += weight * confidence`. -/
def addScore (w : ℚ) (ds : DimensionScore) (a : ScoreAccum) : ScoreAccum :=
  { a with
    dimension_scores := a.dimension_scores ++ [ds]
    weighted_sum := a.weighted_sum + ds.score * w * ds.confidence
    total_weight := a.total_weight + w * ds.confidence }

/-- The `if cid not in candidate_scores:` step: create the entry when
absent (dict append preserves insertion order). -/
def insertIfAbsent (cands : List Candidate) (e : ResultEntry)
    (acc : List ScoreAccum) : List ScoreAccum :=
  if acc.any (fun a => a.candidate_id = resolveCid cands e) then acc
  else acc ++ [newAccum cands (resolveCid cands e) e.candidate_name]

/-- Processing one result entry of one dimension, over the
`candidate_scores` association list (Python dict in insertion order):
resolve the candidate id, create the entry if absent, then — when the
score object is truthy — append the extracted score under the current
dimension's weight. -/
def processEntry (cands : List Candidate) (dim : EvaluationDimension) (w : ℚ)
    (acc : List ScoreAccum) (e : ResultEntry) : List ScoreAccum :=
  match e.score.coerce dim with
  | none => insertIfAbsent cands e acc
  | some ds =>
      (insertIfAbsent cands e acc).map
        (fun a => if a.candidate_id = resolveCid cands e then addScore w ds a else a)

/-- Processing one dimension's result list with
`weight = strategy.get_dimension_weight(dimension)`. -/
def processDimension (strat : EvaluationStrategy) (cands : List Candidate)
    (acc : List ScoreAccum) (dr : EvaluationDimension × List ResultEntry) :
    List ScoreAccum :=
  dr.2.foldl (processEntry cands dr.1 (strat.get_dimension_weight dr.1)) acc

/-- The two nested loops of `_compute_weighted_scores` over
`dimension_results` (a dict in insertion order) and each dimension's
entries. -/
def accumulateScores (strat : EvaluationStrategy)
    (dimRes : List (EvaluationDimension × List ResultEntry))
    (cands : List Candidate) : List ScoreAccum :=
  dimRes.foldl (processDimension strat cands) []

/-- The final-score pass: `weighted_sum / total_weight` when
`total_weight > 0`, else `0`. -/
def ScoreAccum.withFinal (a : ScoreAccum) : ScoreAccum :=
  { a with final_score := if a.total_weight > 0 then a.weighted_sum / a.total_weight else 0 }

/-- The before-relation of Python's
`sorted(..., key=lambda x: x["final_score"], reverse=True)`: an
earlier element stays before a later one exactly when the later one's
key does not exceed it. -/
def scoreDescBefore (a b : ScoreAccum) : Prop := b.final_score ≤ a.final_score

instance : DecidableRel scoreDescBefore :=
  fun a b => inferInstanceAs (Decidable (b.final_score ≤ a.final_score))

instance : IsTotal ScoreAccum scoreDescBefore :=
  ⟨fun a b => le_total b.final_score a.final_score⟩

instance : IsTrans ScoreAccum scoreDescBefore :=
  ⟨fun _ _ _ h₁ h₂ => le_trans h₂ h₁⟩

/-- Python's `sorted` is a stable sort, so it is extensionally
insertion sort by the induced before-relation. -/
def sortByScoreDesc (l : List ScoreAccum) : List ScoreAccum :=
  l.insertionSort scoreDescBefore

/-- The rank-assignment loop
`for rank, c in enumerate(sorted_candidates, 1):
candidate_scores[c["candidate_id"]]["rank"] = rank`: because the dict
keys are distinct, the entry with a given candidate id receives one
plus the position of that id in the sorted list. -/
def assignRank (ranked : List ScoreAccum) (a : ScoreAccum) : ScoreAccum :=
  match ranked.findIdx? (fun b => b.candidate_id = a.candidate_id) with
  | some i => { a with rank := i + 1 }
  | none => a

/-- The `candidate_scores` entries after the final-score pass, still in
dict insertion order. -/
def scoredOf (strat : EvaluationStrategy)
    (dimRes : List (EvaluationDimension × List ResultEntry))
    (cands : List Candidate) : List ScoreAccum :=
  (accumulateScores strat dimRes cands).map ScoreAccum.withFinal

/-- `SupervisorAgent._compute_weighted_scores`: accumulate weighted
scores, compute final scores, and write ranks back into the dict
(whose insertion order the returned list preserves). -/
def computeWeightedScores (strat : EvaluationStrategy)
    (dimRes : List (EvaluationDimension × List ResultEntry))
    (cands : List Candidate) : List ScoreAccum :=
  (scoredOf strat dimRes cands).map
    (assignRank (sortByScoreDesc (scoredOf strat dimRes cands)))

/-- One entry of the analysis oracle's `top_candidates_analysis`. -/
structure AnalysisEntry where
  candidate_id : String
  candidate_name : String
  strengths : List String
  weaknesses : List String
  recommendations : List String
  flags : List String
deriving DecidableEq, Repr, Inhabited

/-- The parsed aggregation-analysis payload, with the fields
`_build_evaluation_result` reads (each `get` default already folded
into the field when the code supplies one). -/
structure LlmAnalysis where
  summary : String
  top_candidates_analysis : List AnalysisEntry
  conflicts_resolved : List String
  insights : List String
  reasoning : String
deriving DecidableEq, Repr, Inhabited

/-- `analysis_lookup`, a dict comprehension keyed by `candidate_id`:
later entries overwrite earlier ones. -/
def analysisLookup (l : List AnalysisEntry) (cid : String) : Option AnalysisEntry :=
  (l.filter (fun a => a.candidate_id = cid)).getLast?

/-- `CandidateEvaluation` dataclass (spec §3); the narrative lists
default to `[]`. -/
structure CandidateEvaluation where
  candidate_id : String
  candidate_name : String
  candidate_info : Option Candidate
  dimension_scores : List DimensionScore
  final_score : ℚ
  rank : ℕ
  strengths : List String
  weaknesses : List String
  recommendations : List String
  flags : List String
deriving DecidableEq, Repr, Inhabited

/-- `EvaluationResult` dataclass (spec §3); `evaluation_metadata` is an
opaque string map. -/
structure EvaluationResult where
  strategy : EvaluationStrategy
  evaluations : List CandidateEvaluation
  total_evaluated : ℕ
  top_candidates : List CandidateEvaluation
  summary : String
  insights : List String
  conflicts_resolved : List String
  evaluation_metadata : List (String × String)
deriving DecidableEq, Repr, Inhabited

/-- Building one `CandidateEvaluation` from a score entry, narrative
fields looked up by candidate id (absent lookup gives the dataclass
defaults, also used verbatim by `_create_basic_result`). -/
def toEvaluation (analysis : List AnalysisEntry) (c : ScoreAccum) : CandidateEvaluation :=
  match analysisLookup analysis c.candidate_id with
  | some a => ⟨c.candidate_id, c.candidate_name, c.candidate_info, c.dimension_scores,
      c.final_score, c.rank, a.strengths, a.weaknesses, a.recommendations, a.flags⟩
  | none => ⟨c.candidate_id, c.candidate_name, c.candidate_info, c.dimension_scores,
      c.final_score, c.rank, [], [], [], []⟩

/-- `SupervisorAgent._build_evaluation_result`: sort the score entries
by final score (stable, descending), attach narrative analysis by id,
slice the top `top_k`. -/
def buildEvaluationResult (strat : EvaluationStrategy) (scores : List ScoreAccum)
    (analysis : LlmAnalysis) : EvaluationResult :=
  let evaluations := (sortByScoreDesc scores).map (toEvaluation analysis.top_candidates_analysis)
  ⟨strat, evaluations, evaluations.length, evaluations.take strat.top_k,
    analysis.summary, analysis.insights, analysis.conflicts_resolved,
    [("reasoning", analysis.reasoning)]⟩

/-- The `EvaluationResult` built by `SupervisorAgent._create_basic_result`
(the fallback without analysis): same sort and slice, narrative fields
left at their defaults, fixed summary. -/
def basicResult (strat : EvaluationStrategy) (scores : List ScoreAccum) : EvaluationResult :=
  let evaluations := (sortByScoreDesc scores).map (toEvaluation [])
  ⟨strat, evaluations, evaluations.length, evaluations.take strat.top_k,
    "Evaluation completed with basic aggregation", [], [], []⟩

/-- `AgentResponse`, reduced to the fields the claims concern: the
success flag, the result carried in `data` (if any), and the message. -/
structure AgentResponse where
  success : Bool
  result? : Option EvaluationResult
  message : String
deriving DecidableEq, Repr, Inhabited

/-- Outcome of the aggregation-analysis oracle call inside
`aggregate_and_rank`'s `try` block: the call raises, or returns text
whose `_parse_json_response` result is falsy (`none`, for unparsable
output) or a parsed payload. -/
inductive AnalysisReply where
  | raised
  | returned (parsed : Option LlmAnalysis)
deriving DecidableEq, Repr, Inhabited

/-- `SupervisorAgent.aggregate_and_rank`: weighted scores are computed
first; a raising oracle call is caught and reported as failure with no
result; unparsable output falls back to `_create_basic_result`; parsed
output feeds `_build_evaluation_result`. -/
def aggregateAndRank (strat : EvaluationStrategy)
    (dimRes : List (EvaluationDimension × List ResultEntry))
    (cands : List Candidate) (oracle : AnalysisReply) : AgentResponse :=
  let scores := computeWeightedScores strat dimRes cands
  match oracle with
  | .raised => ⟨false, none, "Aggregation failed"⟩
  | .returned none => ⟨true, some (basicResult strat scores), "Evaluation completed (basic mode)"⟩
  | .returned (some analysis) =>
      ⟨true, some (buildEvaluationResult strat scores analysis), analysis.summary⟩

/-- The `parameters` dict of a refinement request, restricted to the
keys the code reads. -/
structure RefinementParams where
  candidate_id? : Option String
  dimension? : Option EvaluationDimension
  new_weight? : Option ℚ
deriving DecidableEq, Repr, Inhabited

/-- `RefinementRequest` dataclass. -/
structure RefinementRequest where
  action : String
  parameters : RefinementParams
  reason : String
deriving DecidableEq, Repr, Inhabited

/-- Modelled from the spec: the constructor
`RefinementRequest.exclude_candidate(candidate_id, reason)` of the
missing `models.py`, per its use in
`EvaluationOrchestrator.exclude_candidate` and the `"exclude"` action
name checked by `_apply_refinement` and listed in `api.py`. -/
def RefinementRequest.exclude_candidate (cid reason : String) : RefinementRequest :=
  ⟨"exclude", ⟨some cid, none, none⟩, reason⟩

/-- Modelled from the spec: the constructor
`RefinementRequest.adjust_dimension_weight(dimension, new_weight, reason)`
of the missing `models.py`, per its use in
`EvaluationOrchestrator.adjust_dimension_weight` and the
`"adjust_weight"` action name listed in `api.py`. -/
def RefinementRequest.adjust_dimension_weight (d : EvaluationDimension) (w : ℚ)
    (reason : String) : RefinementRequest :=
  ⟨"adjust_weight", ⟨none, some d, some w⟩, reason⟩

/-- One entry of the refinement oracle's `new_rankings`, with the
optional keys `_apply_refinement` reads. -/
structure RankInfo where
  candidate_id : String
  new_rank? : Option ℕ
  score_adjustment? : Option ℚ
deriving DecidableEq, Repr, Inhabited

/-- The parsed refinement-oracle payload, with the fields
`_apply_refinement` reads; `explanation?` is `none` when the key is
absent (the code then falls back to the current summary). -/
structure RefinementReply where
  changes_applied : List String
  new_rankings : List RankInfo
  excluded_candidates : List String
  explanation? : Option String
deriving DecidableEq, Repr, Inhabited

/-- `rank_lookup`, a dict comprehension keyed by `candidate_id`: later
entries overwrite earlier ones. -/
def rankLookup (rs : List RankInfo) (cid : String) : Option RankInfo :=
  (rs.filter (fun r => r.candidate_id = cid)).getLast?

/-- Applying one oracle ranking entry to an evaluation: the new rank
defaults to the current one, and the score adjustment (default `0`) is
clamped by `max(0, min(100, final_score + adjustment))`. -/
def applyRankInfo (llm : RefinementReply) (e : CandidateEvaluation) : CandidateEvaluation :=
  match rankLookup llm.new_rankings e.candidate_id with
  | some r =>
      { e with
        rank := r.new_rank?.getD e.rank
        final_score := max 0 (min 100 (e.final_score + r.score_adjustment?.getD 0)) }
  | none => e

/-- The before-relation of the stable in-place
`evaluations.sort(key=lambda x: x.rank)`. -/
def rankAscBefore (a b : CandidateEvaluation) : Prop := a.rank ≤ b.rank

instance : DecidableRel rankAscBefore :=
  fun a b => inferInstanceAs (Decidable (a.rank ≤ b.rank))

instance : IsTotal CandidateEvaluation rankAscBefore :=
  ⟨fun a b => Nat.le_total a.rank b.rank⟩

instance : IsTrans CandidateEvaluation rankAscBefore :=
  ⟨fun _ _ _ h₁ h₂ => Nat.le_trans h₁ h₂⟩

/-- The dense re-ranking loop `for i, e in enumerate(evaluations, 1):
e.rank = i`, written with the running counter explicit. -/
def reRankFrom (n : ℕ) : List CandidateEvaluation → List CandidateEvaluation
  | [] => []
  | e :: es => { e with rank := n } :: reRankFrom (n + 1) es

/-- Dense re-ranking starting from rank `1`. -/
def reRank (l : List CandidateEvaluation) : List CandidateEvaluation :=
  reRankFrom 1 l

/-- The id set removed by the `"exclude"` action:
`set(llm_response.get("excluded_candidates", []))` plus
`refinement.parameters.get("candidate_id", "")`. -/
def excludedIds (refi : RefinementRequest) (llm : RefinementReply) : List String :=
  llm.excluded_candidates ++ [refi.parameters.candidate_id?.getD ""]

/-- `SupervisorAgent._apply_refinement`: filter out excluded ids (for
the `"exclude"` action), apply the oracle's rank changes and clamped
score adjustments, re-sort by rank (stable), re-assign consecutive
ranks, re-slice the top `top_k`; the strategy is carried over
unchanged. -/
def applyRefinement (current : EvaluationResult) (refi : RefinementRequest)
    (llm : RefinementReply) : EvaluationResult :=
  let evals₀ := current.evaluations
  let evals₁ :=
    if refi.action = "exclude" then
      evals₀.filter (fun e => ¬ (excludedIds refi llm).contains e.candidate_id)
    else evals₀
  let evals₂ := evals₁.map (applyRankInfo llm)
  let evals₃ := (evals₂.insertionSort rankAscBefore)
  let evals := reRank evals₃
  ⟨current.strategy, evals, evals.length, evals.take current.strategy.top_k,
    llm.explanation?.getD current.summary,
    current.insights ++ llm.changes_applied,
    current.conflicts_resolved,
    current.evaluation_metadata ++ [("refinement_applied", refi.action)]⟩

/-- Outcome of the refinement oracle call inside `refine_results`. -/
inductive RefinementOracle where
  | raised
  | returned (parsed : Option RefinementReply)
deriving DecidableEq, Repr, Inhabited

/-- `SupervisorAgent.refine_results`: a raising call or unparsable
output yields a failure response without a refined result; parsed
output is applied by `_apply_refinement`. -/
def refineResults (current : EvaluationResult) (refi : RefinementRequest)
    (oracle : RefinementOracle) : AgentResponse :=
  match oracle with
  | .raised => ⟨false, none, "Refinement failed"⟩
  | .returned none => ⟨false, none, "Failed to parse refinement response"⟩
  | .returned (some llm) =>
      ⟨true, some (applyRefinement current refi llm),
        llm.explanation?.getD "Results refined successfully"⟩

/-- `EvaluationOrchestrator.adjust_dimension_weight`: builds the
`adjust_weight` refinement request and delegates to the supervisor's
`refine_results`. -/
def adjustDimensionWeight (current : EvaluationResult) (d : EvaluationDimension)
    (w : ℚ) (reason : String) (oracle : RefinementOracle) : AgentResponse :=
  refineResults current (RefinementRequest.adjust_dimension_weight d w reason) oracle

/-- A specialized agent's response to one dimension's scoring pass, as
`run_evaluation` reads it: the success flag and `data["scores"]`. -/
structure ScoresResponse where
  success : Bool
  scores : List ResultEntry
deriving DecidableEq, Repr, Inhabited

/-- The per-dimension recording loop of
`EvaluationOrchestrator.run_evaluation`: a successful pass records its
scores, a failed pass records the empty list, and every dimension is
recorded. -/
def recordDimensionResults (responses : List (EvaluationDimension × ScoresResponse)) :
    List (EvaluationDimension × List ResultEntry) :=
  responses.map (fun p => (p.1, if p.2.success then p.2.scores else []))

/-- `run_evaluation`, phase 2 into phase 3: record each dimension's
outcome, then aggregate over whatever coverage was obtained. -/
def runEvaluation (strat : EvaluationStrategy)
    (responses : List (EvaluationDimension × ScoresResponse))
    (cands : List Candidate) (oracle : AnalysisReply) : AgentResponse :=
  aggregateAndRank strat (recordDimensionResults responses) cands oracle

/-- One raw entry of the planner oracle's `dimensions` list.  A `none`
dimension or weight models a missing key (`KeyError`) or an
unconvertible value (`ValueError`), either of which makes
`_build_strategy_from_response` skip the entry; a `none` priority
models a missing priority key (defaulted by the code), and an entry
whose present priority is unconvertible — also skipped by the code —
is modelled by marking its weight absent. -/
structure RawDimEntry where
  dimension? : Option String
  weight? : Option ℚ
  priority? : Option ℤ
  rationale? : Option String
deriving DecidableEq, Repr, Inhabited

/-- One iteration of the dimension-building loop in
`PlannerAgent._build_strategy_from_response`: an entry with an invalid
or missing dimension name or weight is skipped (logged, not fatal);
the priority defaults to `len(dimensions) + 1` at the time of
processing. -/
def buildDimensionsStep (acc : List DimensionWeight) (e : RawDimEntry) : List DimensionWeight :=
  match e.dimension?.bind dimensionFromString?, e.weight? with
  | some d, some w => acc ++ [⟨d, w, e.priority?.getD ((acc.length : ℤ) + 1), e.rationale?.getD ""⟩]
  | _, _ => acc

/-- The full dimension-building loop. -/
def buildDimensions (entries : List RawDimEntry) : List DimensionWeight :=
  entries.foldl buildDimensionsStep []

/-- Whether a raw entry survives the dimension-building loop. -/
def validRawEntry (e : RawDimEntry) : Bool :=
  (e.dimension?.bind dimensionFromString?).isSome && e.weight?.isSome

/-- The raw weight total `sum(d.weight for d in dimensions)`. -/
def weightTotal (dims : List DimensionWeight) : ℚ :=
  (dims.map (fun d => d.weight)).sum

/-- The normalization step: when the total is positive and deviates
from `1.0` by more than `0.01`, every weight is divided by the
total. -/
def normalizeWeights (dims : List DimensionWeight) : List DimensionWeight :=
  let total := weightTotal dims
  if total > 0 ∧ |total - 1| > 1/100 then
    dims.map (fun d => { d with weight := d.weight / total })
  else dims

/-- The planner oracle's parsed payload, restricted to the fields
`_build_strategy_from_response` reads. -/
structure PlannerParsed where
  dimensions : List RawDimEntry
  exclusion_criteria : List String
  inclusion_criteria : List String
deriving DecidableEq, Repr, Inhabited

/-- `PlannerAgent._build_strategy_from_response`: build and normalize
the dimension weights, set `top_k = min(5, num_candidates)`, start
unconfirmed. -/
def buildStrategyFromResponse (parsed : PlannerParsed) (num_candidates : ℕ) :
    EvaluationStrategy :=
  ⟨normalizeWeights (buildDimensions parsed.dimensions), num_candidates,
    min 5 num_candidates, parsed.exclusion_criteria, parsed.inclusion_criteria,
    false, []⟩

/-! Concrete fixtures: the spec §8 end-to-end scenario — two dimensions
weighted 0.6/0.4, candidate A scored (90, conf 1.0) and (50, conf 0.5),
candidate B scored (70, conf 1.0) on dimension 1 only. -/

/-- Dimension 1 of the end-to-end scenario. -/
def exDim1 : EvaluationDimension := .market_compatibility

/-- Dimension 2 of the end-to-end scenario. -/
def exDim2 : EvaluationDimension := .financial_health

/-- The scenario's confirmed strategy, weights 0.6/0.4. -/
def exampleStrategy : EvaluationStrategy :=
  ⟨[⟨exDim1, 3/5, 1, ""⟩, ⟨exDim2, 2/5, 2, ""⟩], 2, 2, [], [], true, []⟩

/-- Candidate A of the scenario. -/
def candA : Candidate := ⟨some "A", some "Alpha", none, "pyA"⟩

/-- Candidate B of the scenario. -/
def candB : Candidate := ⟨some "B", some "Beta", none, "pyB"⟩

/-- The scenario's candidate list, A before B. -/
def exampleCands : List Candidate := [candA, candB]

/-- The scenario's per-dimension scores. -/
def exampleDimRes : List (EvaluationDimension × List ResultEntry) :=
  [(exDim1, [⟨"A", "Alpha", .obj ⟨exDim1, 90, 1, [], "", []⟩⟩,
             ⟨"B", "Beta", .obj ⟨exDim1, 70, 1, [], "", []⟩⟩]),
   (exDim2, [⟨"A", "Alpha", .obj ⟨exDim2, 50, 1/2, [], "", []⟩⟩])]

/-- The scenario's weighted scores. -/
def exampleScores : List ScoreAccum :=
  computeWeightedScores exampleStrategy exampleDimRes exampleCands

/-- The scenario's aggregated result (basic construction). -/
def exampleResult : EvaluationResult := basicResult exampleStrategy exampleScores

/-- A refinement-oracle reply carrying no changes. -/
def emptyReply : RefinementReply := ⟨[], [], [], none⟩

/-- A refinement-oracle reply adjusting candidate A's score by `+1000`. -/
def bigAdjustReply : RefinementReply := ⟨[], [⟨"A", none, some 1000⟩], [], none⟩

/-- A one-dimension strategy used for the tie-break scenario. -/
def tieStrategy : EvaluationStrategy := ⟨[⟨exDim1, 1, 1, ""⟩], 2, 2, [], [], true, []⟩

/-- Dimension results in which candidate B's entry precedes candidate
A's, both with the same score, although the candidate input order is A
before B. -/
def tieDimRes : List (EvaluationDimension × List ResultEntry) :=
  [(exDim1, [⟨"B", "Beta", .obj ⟨exDim1, 50, 1, [], "", []⟩⟩,
             ⟨"A", "Alpha", .obj ⟨exDim1, 50, 1, [], "", []⟩⟩])]

/-- Dimension results in which the single dimension produced no score
entry at all (for example after a failed scoring pass), although
candidate A is an input candidate. -/
def noCoverageDimRes : List (EvaluationDimension × List ResultEntry) :=
  [(exDim1, [])]

/-- Dimension results whose only entry names candidate A but carries a
`None` score (no usable score produced). -/
def nullScoreDimRes : List (EvaluationDimension × List ResultEntry) :=
  [(exDim1, [⟨"A", "Alpha", .missing⟩])]

/-- Specialized-agent responses in which dimension 1's pass failed
(despite carrying scores, which `run_evaluation` then discards) and
dimension 2's pass succeeded. -/
def mixedResponses : List (EvaluationDimension × ScoresResponse) :=
  [(exDim1, ⟨false, [⟨"A", "Alpha", .obj ⟨exDim1, 90, 1, [], "", []⟩⟩]⟩),
   (exDim2, ⟨true, [⟨"A", "Alpha", .obj ⟨exDim2, 50, 1/2, [], "", []⟩⟩]⟩)]

/-- A planner-oracle payload naming one dimension outside the fixed
enumeration, with remaining raw weights summing to `2`. -/
def examplePlannerParsed : PlannerParsed :=
  ⟨[⟨some "market_compatibility", some 1, some 1, none⟩,
    ⟨some "bogus_dimension", some 5, none, none⟩,
    ⟨some "financial_health", some 1, some 2, none⟩], [], []⟩

/-- The candidate ids of a `candidate_scores` list (the dict keys, in
insertion order). -/
def keysOf (l : List ScoreAccum) : List String := l.map (fun a => a.candidate_id)

/-- Whether a score object carried under dimension `dim` is either not
a `DimensionScore` instance or one whose own `dimension` field agrees
with `dim` (as every score produced by `specialized.py` does). -/
def objDimOk (dim : EvaluationDimension) : ScoreObj → Bool
  | .obj d => decide (d.dimension = dim)
  | _ => true

/-- Dimension results in which every `DimensionScore` object is filed
under its own dimension. -/
def wellFormedDimRes (dimRes : List (EvaluationDimension × List ResultEntry)) : Prop :=
  ∀ p ∈ dimRes, ∀ e ∈ p.2, objDimOk p.1 e.score = true

instance (dimRes : List (EvaluationDimension × List ResultEntry)) :
    Decidable (wellFormedDimRes dimRes) :=
  inferInstanceAs (Decidable (∀ p ∈ dimRes, ∀ e ∈ p.2, objDimOk p.1 e.score = true))

/-- Follows the spec's words (§4.3): the numerator
`Σ(score_d × weight_d × confidence_d)` over the dimensions for which a
`DimensionScore` exists for the candidate. -/
def specNum (strat : EvaluationStrategy) (scores : List DimensionScore) : ℚ :=
  (scores.map (fun ds => ds.score * strat.get_dimension_weight ds.dimension * ds.confidence)).sum

/-- Follows the spec's words (§4.3): the denominator
`Σ(weight_d × confidence_d)` over the same dimensions. -/
def specDen (strat : EvaluationStrategy) (scores : List DimensionScore) : ℚ :=
  (scores.map (fun ds => strat.get_dimension_weight ds.dimension * ds.confidence)).sum

/-- Follows the spec's words (§4.3): the quotient of the two sums, and
`0` when the denominator is `0`.  This is the comparison target for
the code's `_compute_weighted_scores`. -/
def specFinalScore (strat : EvaluationStrategy) (scores : List DimensionScore) : ℚ :=
  if specDen strat scores = 0 then 0 else specNum strat scores / specDen strat scores

/-- The per-entry invariant used for zero-coverage candidates: an entry
with no recorded dimension score has both accumulators at `0`. -/
def emptyOk (a : ScoreAccum) : Prop :=
  a.dimension_scores = [] → a.total_weight = 0 ∧ a.weighted_sum = 0

/-- The accumulator invariant tying `weighted_sum` and `total_weight`
to the spec's two sums over the recorded dimension scores. -/
def accumOk (strat : EvaluationStrategy) (a : ScoreAccum) : Prop :=
  a.weighted_sum = specNum strat a.dimension_scores ∧
    a.total_weight = specDen strat a.dimension_scores

/-! Generic lemmas about stable sorting (`List.insertionSort`, the
model of Python's `sorted`). -/

theorem filter_orderedInsert_of {α : Type} (r : α → α → Prop) [DecidableRel r]
    (p : α → Bool) (x : α) (l : List α)
    (h : p x = true → ∀ y ∈ l, p y = true → r x y) :
    (l.orderedInsert r x).filter p =
      if p x then x :: l.filter p else l.filter p := by
  induction l with
  | nil =>
    cases hp : p x <;> simp [List.orderedInsert, hp]
  | cons y ys ih =>
    by_cases hr : r x y
    · rw [List.orderedInsert, if_pos hr]
      cases hp : p x <;> simp [List.filter_cons, hp]
    · rw [List.orderedInsert, if_neg hr]
      have ih2 := ih (fun hpx z hz hpz => h hpx z (List.mem_cons_of_mem y hz) hpz)
      cases hpx : p x
      · simp only [hpx] at ih2
        cases hpy : p y <;> simp [List.filter_cons, hpy, ih2, hpx]
      · have hpy : p y = false := by
          cases hpy : p y
          · rfl
          · exact absurd (h hpx y (List.mem_cons_self y ys) hpy) hr
        simp only [hpx] at ih2
        simp [List.filter_cons, hpy, ih2, hpx]

theorem filter_insertionSort_of {α : Type} (r : α → α → Prop) [DecidableRel r]
    (p : α → Bool) (l : List α)
    (h : ∀ x y, p x = true → p y = true → r x y) :
    (l.insertionSort r).filter p = l.filter p := by
  induction l with
  | nil => rfl
  | cons x xs ih =>
    rw [List.insertionSort,
      filter_orderedInsert_of r p x (xs.insertionSort r) (fun hpx y _ hpy => h x y hpx hpy)]
    cases hp : p x <;> simp [List.filter_cons, hp, ih]

theorem findIdx?_key_nodup {α κ : Type} [DecidableEq κ] (key : α → κ) :
    ∀ (l : List α), (l.map key).Nodup → ∀ (i : ℕ) (h : i < l.length) (s : ℕ),
      List.findIdx? (fun b => key b = key (l.get ⟨i, h⟩)) l s = some (s + i) := by
  intro l
  induction l with
  | nil => intro _ i h; exact absurd h (Nat.not_lt_zero i)
  | cons a l ih =>
    intro hnd i h s
    match i with
    | 0 => simp [List.findIdx?_cons]
    | i + 1 =>
      have hmem : key (l.get ⟨i, Nat.lt_of_succ_lt_succ h⟩) ∈ l.map key :=
        List.mem_map_of_mem key (l.get_mem _ _)
      rw [List.map_cons, List.nodup_cons] at hnd
      have hne : ¬ key a = key (l.get ⟨i, Nat.lt_of_succ_lt_succ h⟩) := by
        intro heq
        exact hnd.1 (heq ▸ hmem)
      rw [List.findIdx?_cons, if_neg (by simpa using hne)]
      have := ih hnd.2 i (Nat.lt_of_succ_lt_succ h) (s + 1)
      rw [show (a :: l).get ⟨i + 1, h⟩ = l.get ⟨i, Nat.lt_of_succ_lt_succ h⟩ from rfl, this]
      congr 1
      omega

/-! Field-preservation lemmas for the small update functions. -/

theorem assignRank_candidate_id (m : List ScoreAccum) (a : ScoreAccum) :
    (assignRank m a).candidate_id = a.candidate_id := by
  unfold assignRank
  cases m.findIdx? (fun b => b.candidate_id = a.candidate_id) <;> rfl

theorem assignRank_final_score (m : List ScoreAccum) (a : ScoreAccum) :
    (assignRank m a).final_score = a.final_score := by
  unfold assignRank
  cases m.findIdx? (fun b => b.candidate_id = a.candidate_id) <;> rfl

theorem assignRank_dimension_scores (m : List ScoreAccum) (a : ScoreAccum) :
    (assignRank m a).dimension_scores = a.dimension_scores := by
  unfold assignRank
  cases m.findIdx? (fun b => b.candidate_id = a.candidate_id) <;> rfl

theorem withFinal_candidate_id (a : ScoreAccum) :
    a.withFinal.candidate_id = a.candidate_id := rfl

theorem withFinal_dimension_scores (a : ScoreAccum) :
    a.withFinal.dimension_scores = a.dimension_scores := rfl

theorem toEvaluation_candidate_id (A : List AnalysisEntry) (c : ScoreAccum) :
    (toEvaluation A c).candidate_id = c.candidate_id := by
  unfold toEvaluation
  cases analysisLookup A c.candidate_id <;> rfl

theorem toEvaluation_final_score (A : List AnalysisEntry) (c : ScoreAccum) :
    (toEvaluation A c).final_score = c.final_score := by
  unfold toEvaluation
  cases analysisLookup A c.candidate_id <;> rfl

theorem toEvaluation_rank (A : List AnalysisEntry) (c : ScoreAccum) :
    (toEvaluation A c).rank = c.rank := by
  unfold toEvaluation
  cases analysisLookup A c.candidate_id <;> rfl

theorem toEvaluation_dimension_scores (A : List AnalysisEntry) (c : ScoreAccum) :
    (toEvaluation A c).dimension_scores = c.dimension_scores := by
  unfold toEvaluation
  cases analysisLookup A c.candidate_id <;> rfl

theorem applyRankInfo_candidate_id (llm : RefinementReply) (e : CandidateEvaluation) :
    (applyRankInfo llm e).candidate_id = e.candidate_id := by
  unfold applyRankInfo
  cases rankLookup llm.new_rankings e.candidate_id <;> rfl

theorem applyRankInfo_dimension_scores (llm : RefinementReply) (e : CandidateEvaluation) :
    (applyRankInfo llm e).dimension_scores = e.dimension_scores := by
  unfold applyRankInfo
  cases rankLookup llm.new_rankings e.candidate_id <;> rfl

theorem reRankFrom_map {β : Type} (g : CandidateEvaluation → β)
    (hg : ∀ e n, g { e with rank := n } = g e) :
    ∀ (n : ℕ) (l : List CandidateEvaluation), (reRankFrom n l).map g = l.map g := by
  intro n l
  induction l generalizing n with
  | nil => rfl
  | cons e es ih => simp [reRankFrom, hg, ih]

theorem reRankFrom_ranks :
    ∀ (n : ℕ) (l : List CandidateEvaluation),
      (reRankFrom n l).map (fun e => e.rank) = List.range' n l.length := by
  intro n l
  induction l generalizing n with
  | nil => rfl
  | cons e es ih => simp [reRankFrom, List.range', ih]

theorem reRankFrom_length (n : ℕ) (l : List CandidateEvaluation) :
    (reRankFrom n l).length = l.length := by
  induction l generalizing n with
  | nil => rfl
  | cons e es ih => simp [reRankFrom, ih]

theorem update_candidate_id (cid : String) (w : ℚ) (ds : DimensionScore) (a : ScoreAccum) :
    (if a.candidate_id = cid then addScore w ds a else a).candidate_id = a.candidate_id := by
  by_cases h : a.candidate_id = cid <;> simp [h, addScore]

theorem keysOf_update_map (cid : String) (w : ℚ) (ds : DimensionScore) (l : List ScoreAccum) :
    keysOf (l.map (fun a => if a.candidate_id = cid then addScore w ds a else a)) = keysOf l := by
  unfold keysOf
  rw [List.map_map]
  exact List.map_congr_left (fun a _ => update_candidate_id cid w ds a)

theorem keysOf_processEntry (cands : List Candidate) (dim : EvaluationDimension) (w : ℚ)
    (acc : List ScoreAccum) (e : ResultEntry) :
    keysOf (processEntry cands dim w acc e) = keysOf (insertIfAbsent cands e acc) := by
  unfold processEntry
  cases e.score.coerce dim with
  | none => rfl
  | some ds => exact keysOf_update_map _ w ds _

theorem mem_keysOf_insertIfAbsent (cands : List Candidate) (e : ResultEntry)
    (acc : List ScoreAccum) (cid0 : String) :
    cid0 ∈ keysOf (insertIfAbsent cands e acc) ↔
      cid0 ∈ keysOf acc ∨ cid0 = resolveCid cands e := by
  unfold insertIfAbsent
  cases hany : acc.any (fun a => a.candidate_id = resolveCid cands e) with
  | true =>
    rw [if_pos rfl]
    constructor
    · exact Or.inl
    · rintro (h | h)
      · exact h
      · rcases List.any_eq_true.mp hany with ⟨a, ha, haid⟩
        subst h
        exact (of_decide_eq_true haid) ▸ List.mem_map_of_mem _ ha
  | false =>
    rw [if_neg (by simp)]
    simp [keysOf, newAccum, eq_comm]

theorem nodup_keysOf_insertIfAbsent (cands : List Candidate) (e : ResultEntry)
    (acc : List ScoreAccum) (h : (keysOf acc).Nodup) :
    (keysOf (insertIfAbsent cands e acc)).Nodup := by
  unfold insertIfAbsent
  cases hany : acc.any (fun a => a.candidate_id = resolveCid cands e) with
  | true => rw [if_pos rfl]; exact h
  | false =>
    rw [if_neg (by simp)]
    have hnotin : resolveCid cands e ∉ keysOf acc := by
      intro hmem
      rcases List.mem_map.mp hmem with ⟨a, ha, haid⟩
      have htrue : (acc.any fun b => b.candidate_id = resolveCid cands e) = true :=
        List.any_eq_true.mpr ⟨a, ha, by exact decide_eq_true haid⟩
      rw [hany] at htrue
      exact Bool.false_ne_true htrue
    have hkeys : keysOf (acc ++ [newAccum cands (resolveCid cands e) e.candidate_name]) =
        keysOf acc ++ [resolveCid cands e] := by
      simp [keysOf, newAccum]
    rw [hkeys, List.nodup_append]
    refine ⟨h, List.nodup_singleton _, ?_⟩
    intro x hx hxmem
    rw [List.mem_singleton] at hxmem
    exact hnotin (hxmem ▸ hx)

theorem mem_keysOf_processEntry (cands : List Candidate) (dim : EvaluationDimension)
    (w : ℚ) (acc : List ScoreAccum) (e : ResultEntry) (cid0 : String) :
    cid0 ∈ keysOf (processEntry cands dim w acc e) ↔
      cid0 ∈ keysOf acc ∨ cid0 = resolveCid cands e := by
  rw [keysOf_processEntry]
  exact mem_keysOf_insertIfAbsent cands e acc cid0

theorem nodup_keysOf_processEntry (cands : List Candidate) (dim : EvaluationDimension)
    (w : ℚ) (acc : List ScoreAccum) (e : ResultEntry) (h : (keysOf acc).Nodup) :
    (keysOf (processEntry cands dim w acc e)).Nodup := by
  rw [keysOf_processEntry]
  exact nodup_keysOf_insertIfAbsent cands e acc h

theorem mem_keysOf_foldl_entries (cands : List Candidate) (dim : EvaluationDimension)
    (w : ℚ) :
    ∀ (es : List ResultEntry) (acc : List ScoreAccum) (cid0 : String),
      cid0 ∈ keysOf (es.foldl (processEntry cands dim w) acc) ↔
        cid0 ∈ keysOf acc ∨ ∃ e ∈ es, resolveCid cands e = cid0 := by
  intro es
  induction es with
  | nil => intro acc cid0; simp
  | cons e es ih =>
    intro acc cid0
    rw [List.foldl_cons, ih, mem_keysOf_processEntry]
    constructor
    · rintro ((h | h) | ⟨x, hx, hxeq⟩)
      · exact Or.inl h
      · exact Or.inr ⟨e, List.mem_cons_self e es, h.symm⟩
      · exact Or.inr ⟨x, List.mem_cons_of_mem e hx, hxeq⟩
    · rintro (h | ⟨x, hx, hxeq⟩)
      · exact Or.inl (Or.inl h)
      · rcases List.mem_cons.mp hx with hx | hx
        · exact Or.inl (Or.inr (hx ▸ hxeq.symm))
        · exact Or.inr ⟨x, hx, hxeq⟩

theorem nodup_keysOf_foldl_entries (cands : List Candidate) (dim : EvaluationDimension)
    (w : ℚ) :
    ∀ (es : List ResultEntry) (acc : List ScoreAccum), (keysOf acc).Nodup →
      (keysOf (es.foldl (processEntry cands dim w) acc)).Nodup := by
  intro es
  induction es with
  | nil => intro acc h; exact h
  | cons e es ih =>
    intro acc h
    exact ih _ (nodup_keysOf_processEntry cands dim w acc e h)

theorem mem_keysOf_foldl_dims (strat : EvaluationStrategy) (cands : List Candidate) :
    ∀ (dimRes : List (EvaluationDimension × List ResultEntry)) (acc : List ScoreAccum)
      (cid0 : String),
      cid0 ∈ keysOf (dimRes.foldl (processDimension strat cands) acc) ↔
        cid0 ∈ keysOf acc ∨ ∃ p ∈ dimRes, ∃ e ∈ p.2, resolveCid cands e = cid0 := by
  intro dimRes
  induction dimRes with
  | nil => intro acc cid0; simp
  | cons p ps ih =>
    intro acc cid0
    rw [List.foldl_cons, ih]
    unfold processDimension
    rw [mem_keysOf_foldl_entries]
    constructor
    · rintro ((h | ⟨e, he, heq⟩) | ⟨q, hq, e, he, heq⟩)
      · exact Or.inl h
      · exact Or.inr ⟨p, List.mem_cons_self p ps, e, he, heq⟩
      · exact Or.inr ⟨q, List.mem_cons_of_mem p hq, e, he, heq⟩
    · rintro (h | ⟨q, hq, e, he, heq⟩)
      · exact Or.inl (Or.inl h)
      · rcases List.mem_cons.mp hq with hq | hq
        · exact Or.inl (Or.inr ⟨e, hq ▸ he, heq⟩)
        · exact Or.inr ⟨q, hq, e, he, heq⟩

theorem mem_keysOf_accumulate (strat : EvaluationStrategy)
    (dimRes : List (EvaluationDimension × List ResultEntry)) (cands : List Candidate)
    (cid0 : String) :
    cid0 ∈ keysOf (accumulateScores strat dimRes cands) ↔
      ∃ p ∈ dimRes, ∃ e ∈ p.2, resolveCid cands e = cid0 := by
  unfold accumulateScores
  rw [mem_keysOf_foldl_dims]
  simp [keysOf]

theorem nodup_keysOf_accumulate (strat : EvaluationStrategy)
    (dimRes : List (EvaluationDimension × List ResultEntry)) (cands : List Candidate) :
    (keysOf (accumulateScores strat dimRes cands)).Nodup := by
  unfold accumulateScores
  have : ∀ (ps : List (EvaluationDimension × List ResultEntry)) (acc : List ScoreAccum),
      (keysOf acc).Nodup → (keysOf (ps.foldl (processDimension strat cands) acc)).Nodup := by
    intro ps
    induction ps with
    | nil => intro acc h; exact h
    | cons p ps ih =>
      intro acc h
      exact ih _ (nodup_keysOf_foldl_entries cands p.1 _ p.2 acc h)
  exact this dimRes [] (by simp [keysOf])

/-- A foldl-preservation engine for per-entry invariants of the
`candidate_scores` accumulator. -/
theorem forall_mem_foldl {α β : Type} (f : List α → β → List α) (P : α → Prop) :
    ∀ (bs : List β), (∀ b ∈ bs, ∀ acc, (∀ a ∈ acc, P a) → ∀ a ∈ f acc b, P a) →
      ∀ acc, (∀ a ∈ acc, P a) → ∀ a ∈ bs.foldl f acc, P a := by
  intro bs
  induction bs with
  | nil => intro _ acc h a ha; exact h a ha
  | cons b bs ih =>
    intro H acc h
    exact ih (fun x hx => H x (List.mem_cons_of_mem b hx)) (f acc b)
      (H b (List.mem_cons_self b bs) acc h)

theorem mem_insertIfAbsent (cands : List Candidate) (e : ResultEntry)
    (acc : List ScoreAccum) (a : ScoreAccum) (h : a ∈ insertIfAbsent cands e acc) :
    a ∈ acc ∨ a = newAccum cands (resolveCid cands e) e.candidate_name := by
  unfold insertIfAbsent at h
  by_cases hany : (acc.any fun b => b.candidate_id = resolveCid cands e) = true
  · rw [if_pos hany] at h; exact Or.inl h
  · rw [if_neg hany] at h
    rcases List.mem_append.mp h with h | h
    · exact Or.inl h
    · exact Or.inr (List.mem_singleton.mp h)

theorem coerce_dimension (dim : EvaluationDimension) (s : ScoreObj) (ds : DimensionScore)
    (hok : objDimOk dim s = true) (hco : s.coerce dim = some ds) : ds.dimension = dim := by
  cases s with
  | missing => exact absurd hco (by simp [ScoreObj.coerce])
  | obj d =>
    have hd : d = ds := by simpa [ScoreObj.coerce] using hco
    exact hd ▸ of_decide_eq_true hok
  | dict sc c ev re =>
    by_cases ht : (ScoreObj.dict sc c ev re).isTruthy = true
    · simp only [ScoreObj.coerce, if_pos ht] at hco
      cases hco
      rfl
    · simp only [ScoreObj.coerce, if_neg ht] at hco
      exact absurd hco (by simp)
  | num q =>
    by_cases hq : q = 0
    · simp only [ScoreObj.coerce, if_pos hq] at hco
      exact absurd hco (by simp)
    · simp only [ScoreObj.coerce, if_neg hq] at hco
      cases hco
      rfl

theorem emptyOk_processEntry (cands : List Candidate) (dim : EvaluationDimension)
    (w : ℚ) (e : ResultEntry) (acc : List ScoreAccum)
    (h : ∀ a ∈ acc, emptyOk a) : ∀ a ∈ processEntry cands dim w acc e, emptyOk a := by
  intro a ha
  unfold processEntry at ha
  cases hco : e.score.coerce dim with
  | none =>
    rw [hco] at ha
    rcases mem_insertIfAbsent cands e acc a ha with ha | ha
    · exact h a ha
    · intro _; subst ha; exact ⟨rfl, rfl⟩
  | some ds =>
    rw [hco] at ha
    rcases List.mem_map.mp ha with ⟨b, hb, hba⟩
    rcases mem_insertIfAbsent cands e acc b hb with hb2 | hb2
    · subst hba
      by_cases hbc : b.candidate_id = resolveCid cands e
      · rw [if_pos hbc]
        intro hds
        exact absurd hds (by simp [addScore])
      · rw [if_neg hbc]
        exact h b hb2
    · subst hba hb2
      by_cases hbc : (newAccum cands (resolveCid cands e) e.candidate_name).candidate_id =
          resolveCid cands e
      · rw [if_pos hbc]
        intro hds
        exact absurd hds (by simp [addScore])
      · rw [if_neg hbc]
        intro _; exact ⟨rfl, rfl⟩

theorem emptyOk_accumulate (strat : EvaluationStrategy)
    (dimRes : List (EvaluationDimension × List ResultEntry)) (cands : List Candidate) :
    ∀ a ∈ accumulateScores strat dimRes cands, emptyOk a := by
  unfold accumulateScores
  exact forall_mem_foldl (processDimension strat cands) emptyOk dimRes
    (fun p _ acc hacc =>
      forall_mem_foldl (processEntry cands p.1 (strat.get_dimension_weight p.1)) emptyOk p.2
        (fun e _ acc2 hacc2 => emptyOk_processEntry cands p.1 _ e acc2 hacc2) acc hacc)
    [] (fun a ha => absurd ha (List.not_mem_nil a))

theorem accumOk_newAccum (strat : EvaluationStrategy) (cands : List Candidate)
    (cid cname : String) : accumOk strat (newAccum cands cid cname) := by
  constructor <;> simp [newAccum, specNum, specDen]

theorem accumOk_addScore (strat : EvaluationStrategy) (ds : DimensionScore)
    (a : ScoreAccum) (h : accumOk strat a) :
    accumOk strat (addScore (strat.get_dimension_weight ds.dimension) ds a) := by
  constructor
  · simp [addScore, specNum, h.1, List.sum_append]
  · simp [addScore, specDen, h.2, List.sum_append]

theorem accumOk_processEntry (strat : EvaluationStrategy) (cands : List Candidate)
    (dim : EvaluationDimension) (e : ResultEntry)
    (hok : objDimOk dim e.score = true) (acc : List ScoreAccum)
    (h : ∀ a ∈ acc, accumOk strat a) :
    ∀ a ∈ processEntry cands dim (strat.get_dimension_weight dim) acc e,
      accumOk strat a := by
  intro a ha
  unfold processEntry at ha
  cases hco : e.score.coerce dim with
  | none =>
    rw [hco] at ha
    rcases mem_insertIfAbsent cands e acc a ha with ha | ha
    · exact h a ha
    · exact ha ▸ accumOk_newAccum strat cands _ _
  | some ds =>
    rw [hco] at ha
    rcases List.mem_map.mp ha with ⟨b, hb, hba⟩
    have hbok : accumOk strat b := by
      rcases mem_insertIfAbsent cands e acc b hb with hb2 | hb2
      · exact h b hb2
      · exact hb2 ▸ accumOk_newAccum strat cands _ _
    subst hba
    by_cases hbc : b.candidate_id = resolveCid cands e
    · rw [if_pos hbc]
      have hdim : ds.dimension = dim := coerce_dimension dim e.score ds hok hco
      rw [← hdim]
      exact accumOk_addScore strat ds b hbok
    · rw [if_neg hbc]
      exact hbok

theorem accumOk_accumulate (strat : EvaluationStrategy)
    (dimRes : List (EvaluationDimension × List ResultEntry)) (cands : List Candidate)
    (hwf : wellFormedDimRes dimRes) :
    ∀ a ∈ accumulateScores strat dimRes cands, accumOk strat a := by
  unfold accumulateScores
  exact forall_mem_foldl (processDimension strat cands) (accumOk strat) dimRes
    (fun p hp acc hacc =>
      forall_mem_foldl (processEntry cands p.1 (strat.get_dimension_weight p.1))
        (accumOk strat) p.2
        (fun e he acc2 hacc2 =>
          accumOk_processEntry strat cands p.1 e (hwf p hp e he) acc2 hacc2)
        acc hacc)
    [] (fun a ha => absurd ha (List.not_mem_nil a))

theorem final_score_eq_spec (strat : EvaluationStrategy)
    (dimRes : List (EvaluationDimension × List ResultEntry)) (cands : List Candidate)
    (hwf : wellFormedDimRes dimRes) :
    ∀ a ∈ computeWeightedScores strat dimRes cands,
      0 ≤ specDen strat a.dimension_scores →
        a.final_score = specFinalScore strat a.dimension_scores := by
  intro a ha hden
  unfold computeWeightedScores at ha
  rcases List.mem_map.mp ha with ⟨b, hb, hba⟩
  unfold scoredOf at hb
  rcases List.mem_map.mp hb with ⟨c, hc, hcb⟩
  have hok : accumOk strat c := accumOk_accumulate strat dimRes cands hwf c hc
  have hfs : a.final_score = b.final_score := hba ▸ assignRank_final_score _ b
  have hds : a.dimension_scores = c.dimension_scores := by
    rw [← hba, assignRank_dimension_scores, ← hcb, withFinal_dimension_scores]
  have hbf : b.final_score =
      if c.total_weight > 0 then c.weighted_sum / c.total_weight else 0 := by
    rw [← hcb]; rfl
  rw [hfs, hbf, hds]
  rw [hds] at hden
  by_cases htw : specDen strat c.dimension_scores > 0
  · rw [if_pos (hok.2 ▸ htw)]
    unfold specFinalScore
    rw [if_neg (ne_of_gt htw), hok.1, hok.2]
  · have h0 : specDen strat c.dimension_scores = 0 := le_antisymm (not_lt.mp htw) hden
    rw [if_neg (by rw [hok.2]; exact htw)]
    unfold specFinalScore
    rw [if_pos h0]

theorem keysOf_map_withFinal (l : List ScoreAccum) :
    keysOf (l.map ScoreAccum.withFinal) = keysOf l := by
  unfold keysOf
  rw [List.map_map]
  exact List.map_congr_left (fun a _ => withFinal_candidate_id a)

theorem keysOf_scoredOf (strat : EvaluationStrategy)
    (dimRes : List (EvaluationDimension × List ResultEntry)) (cands : List Candidate) :
    keysOf (scoredOf strat dimRes cands) = keysOf (accumulateScores strat dimRes cands) :=
  keysOf_map_withFinal _

theorem nodup_keysOf_sorted_scoredOf (strat : EvaluationStrategy)
    (dimRes : List (EvaluationDimension × List ResultEntry)) (cands : List Candidate) :
    (keysOf (sortByScoreDesc (scoredOf strat dimRes cands))).Nodup := by
  have hperm : List.Perm (keysOf (sortByScoreDesc (scoredOf strat dimRes cands)))
      (keysOf (scoredOf strat dimRes cands)) :=
    (List.perm_insertionSort scoreDescBefore _).map _
  rw [hperm.nodup_iff, keysOf_scoredOf]
  exact nodup_keysOf_accumulate strat dimRes cands

theorem sort_commute (strat : EvaluationStrategy)
    (dimRes : List (EvaluationDimension × List ResultEntry)) (cands : List Candidate) :
    sortByScoreDesc (computeWeightedScores strat dimRes cands) =
      (sortByScoreDesc (scoredOf strat dimRes cands)).map
        (assignRank (sortByScoreDesc (scoredOf strat dimRes cands))) := by
  unfold computeWeightedScores sortByScoreDesc
  exact (List.map_insertionSort scoreDescBefore scoreDescBefore
    (assignRank (sortByScoreDesc (scoredOf strat dimRes cands)))
    (scoredOf strat dimRes cands)
    (fun a _ b _ => by
      unfold scoreDescBefore
      rw [assignRank_final_score, assignRank_final_score])).symm

theorem ranks_of_assignRank_map (m : List ScoreAccum) (hnd : (keysOf m).Nodup) :
    (m.map (assignRank m)).map (fun a => a.rank) = List.range' 1 m.length := by
  apply List.ext_get
  · simp [List.length_range']
  · intro i h1 h2
    have hi : i < m.length := by simpa using h1
    have hnd2 : (List.map (fun a : ScoreAccum => a.candidate_id) m).Nodup := hnd
    have hfind := findIdx?_key_nodup (fun a => a.candidate_id) m hnd2 i hi 0
    simp only [List.get_eq_getElem] at hfind
    simp only [List.get_eq_getElem, List.getElem_map, List.getElem_range']
    unfold assignRank
    rw [hfind]
    change 0 + i + 1 = 1 + 1 * i
    omega

theorem length_computeWeightedScores (strat : EvaluationStrategy)
    (dimRes : List (EvaluationDimension × List ResultEntry)) (cands : List Candidate) :
    (computeWeightedScores strat dimRes cands).length =
      (sortByScoreDesc (scoredOf strat dimRes cands)).length := by
  unfold computeWeightedScores
  rw [List.length_map]
  unfold sortByScoreDesc
  rw [List.length_insertionSort]

theorem computeWeightedScores_sorted_ranks (strat : EvaluationStrategy)
    (dimRes : List (EvaluationDimension × List ResultEntry)) (cands : List Candidate) :
    (sortByScoreDesc (computeWeightedScores strat dimRes cands)).map (fun a => a.rank) =
      List.range' 1 (computeWeightedScores strat dimRes cands).length := by
  rw [sort_commute,
    ranks_of_assignRank_map _ (nodup_keysOf_sorted_scoredOf strat dimRes cands),
    length_computeWeightedScores]

theorem reRankFrom_eq_self :
    ∀ (n : ℕ) (l : List CandidateEvaluation),
      l.map (fun e => e.rank) = List.range' n l.length → reRankFrom n l = l := by
  intro n l
  induction l generalizing n with
  | nil => intro _; rfl
  | cons e es ih =>
    intro h
    simp only [List.map_cons, List.length_cons, List.range'] at h
    rw [reRankFrom, ih (n + 1) (List.cons.injEq .. ▸ h).2]
    have he : e.rank = n := (List.cons.injEq .. ▸ h).1
    rw [← he]

theorem buildEvaluationResult_evaluations (strat : EvaluationStrategy)
    (scores : List ScoreAccum) (analysis : LlmAnalysis) :
    (buildEvaluationResult strat scores analysis).evaluations =
      (sortByScoreDesc scores).map (toEvaluation analysis.top_candidates_analysis) := rfl

theorem buildEvaluationResult_top (strat : EvaluationStrategy)
    (scores : List ScoreAccum) (analysis : LlmAnalysis) :
    (buildEvaluationResult strat scores analysis).top_candidates =
      (buildEvaluationResult strat scores analysis).evaluations.take strat.top_k := rfl

theorem basicResult_evaluations (strat : EvaluationStrategy) (scores : List ScoreAccum) :
    (basicResult strat scores).evaluations =
      (sortByScoreDesc scores).map (toEvaluation []) := rfl

theorem basicResult_top (strat : EvaluationStrategy) (scores : List ScoreAccum) :
    (basicResult strat scores).top_candidates =
      (basicResult strat scores).evaluations.take strat.top_k := rfl

theorem applyRefinement_evaluations (current : EvaluationResult)
    (refi : RefinementRequest) (llm : RefinementReply) :
    (applyRefinement current refi llm).evaluations =
      reRank (((if refi.action = "exclude" then
          current.evaluations.filter
            (fun e => ¬ (excludedIds refi llm).contains e.candidate_id)
        else current.evaluations).map (applyRankInfo llm)).insertionSort rankAscBefore) := rfl

theorem applyRefinement_top (current : EvaluationResult)
    (refi : RefinementRequest) (llm : RefinementReply) :
    (applyRefinement current refi llm).top_candidates =
      (applyRefinement current refi llm).evaluations.take current.strategy.top_k := rfl

theorem applyRefinement_strategy (current : EvaluationResult)
    (refi : RefinementRequest) (llm : RefinementReply) :
    (applyRefinement current refi llm).strategy = current.strategy := rfl

theorem rank_dense_sorted_map (strat : EvaluationStrategy)
    (dimRes : List (EvaluationDimension × List ResultEntry)) (cands : List Candidate)
    (A : List AnalysisEntry) :
    (((sortByScoreDesc (computeWeightedScores strat dimRes cands)).map (toEvaluation A)).map
        (fun e => e.rank)) =
      List.range' 1
        ((sortByScoreDesc (computeWeightedScores strat dimRes cands)).map
          (toEvaluation A)).length := by
  rw [List.map_map]
  have h1 : (sortByScoreDesc (computeWeightedScores strat dimRes cands)).map
      ((fun e => e.rank) ∘ toEvaluation A) =
      (sortByScoreDesc (computeWeightedScores strat dimRes cands)).map (fun a => a.rank) :=
    List.map_congr_left (fun c _ => toEvaluation_rank A c)
  rw [h1, computeWeightedScores_sorted_ranks]
  congr 1
  rw [List.length_map]
  unfold sortByScoreDesc
  rw [List.length_insertionSort]

theorem rank_dense_applyRefinement (current : EvaluationResult)
    (refi : RefinementRequest) (llm : RefinementReply) :
    (applyRefinement current refi llm).evaluations.map (fun e => e.rank) =
      List.range' 1 (applyRefinement current refi llm).evaluations.length := by
  rw [applyRefinement_evaluations]
  unfold reRank
  rw [reRankFrom_ranks, reRankFrom_length]

theorem sorted_evaluations (l : List ScoreAccum) (A : List AnalysisEntry) :
    ((sortByScoreDesc l).map (toEvaluation A)).Pairwise
      (fun a b => b.final_score ≤ a.final_score) := by
  apply List.Pairwise.map (toEvaluation A)
    (fun a b (h : scoreDescBefore a b) => by
      rw [toEvaluation_final_score, toEvaluation_final_score]; exact h)
  exact List.sorted_insertionSort scoreDescBefore l

theorem stability_evaluations (l : List ScoreAccum) (A : List AnalysisEntry) (s : ℚ) :
    (((sortByScoreDesc l).map (toEvaluation A)).filter (fun e => e.final_score = s)).map
        (fun e => e.candidate_id) =
      (l.filter (fun a => a.final_score = s)).map (fun a => a.candidate_id) := by
  rw [List.filter_map]
  have h1 : List.filter ((fun e => decide (e.final_score = s)) ∘ toEvaluation A)
      (sortByScoreDesc l) =
      List.filter (fun a => decide (a.final_score = s)) (sortByScoreDesc l) :=
    List.filter_congr (fun c _ => by
      simp only [Function.comp, toEvaluation_final_score])
  rw [h1]
  unfold sortByScoreDesc
  rw [filter_insertionSort_of scoreDescBefore _ l
    (fun x y hx hy => by
      unfold scoreDescBefore
      rw [of_decide_eq_true hx, of_decide_eq_true hy])]
  rw [List.map_map]
  exact List.map_congr_left (fun c _ => toEvaluation_candidate_id A c)

theorem keysOf_computeWeightedScores (strat : EvaluationStrategy)
    (dimRes : List (EvaluationDimension × List ResultEntry)) (cands : List Candidate) :
    keysOf (computeWeightedScores strat dimRes cands) =
      keysOf (accumulateScores strat dimRes cands) := by
  unfold computeWeightedScores
  unfold keysOf
  rw [List.map_map]
  have h1 : (scoredOf strat dimRes cands).map
      ((fun a => a.candidate_id) ∘ assignRank (sortByScoreDesc (scoredOf strat dimRes cands))) =
      (scoredOf strat dimRes cands).map (fun a => a.candidate_id) :=
    List.map_congr_left (fun a _ => assignRank_candidate_id _ a)
  rw [h1]
  exact keysOf_scoredOf strat dimRes cands

attribute [local semireducible] Rat.add Rat.mul Rat.inv Rat.sub in
/-- C1: for every candidate entry the aggregation records, the final
score equals the spec's formula
`Σ(score_d × weight_d × confidence_d) / Σ(weight_d × confidence_d)`
over its recorded dimension scores, with `0` when the denominator is
`0` (given that each `DimensionScore` is filed under its own dimension
and the denominator is nonnegative, as weights and confidences in
`[0,1]` guarantee); in particular, in the 0.6/0.4 two-dimension
scenario candidate A — scored (90, conf 1.0) and (50, conf 0.5) —
gets final score 80 at rank 1 and candidate B — scored (70, conf 1.0)
on dimension 1 only — gets 70 at rank 2, so A ranks above B. -/
theorem C1_final_score_formula :
    (∀ (strat : EvaluationStrategy)
      (dimRes : List (EvaluationDimension × List ResultEntry))
      (cands : List Candidate), wellFormedDimRes dimRes →
      ∀ a ∈ computeWeightedScores strat dimRes cands,
        0 ≤ specDen strat a.dimension_scores →
          a.final_score = specFinalScore strat a.dimension_scores) ∧
    exampleResult.evaluations.map (fun e => (e.candidate_id, e.final_score, e.rank)) =
      [("A", 80, 1), ("B", 70, 2)] := by
  constructor
  · intro strat dimRes cands hwf a ha hden
    exact final_score_eq_spec strat dimRes cands hwf a ha hden
  · decide

attribute [local semireducible] Rat.add Rat.mul Rat.inv Rat.sub in
/-- Witness for C1: the formula theorem applied to the scenario's
candidate A entry, every hypothesis discharged by evaluation. -/
theorem C1_final_score_formula_witness :
    exampleScores.headI.final_score =
      specFinalScore exampleStrategy exampleScores.headI.dimension_scores :=
  C1_final_score_formula.1 exampleStrategy exampleDimRes exampleCands (by decide)
    exampleScores.headI (by decide) (by decide)

/-- C3: every `EvaluationResult` built by aggregation (with or without
the analysis payload) or by a refinement has rank fields forming
exactly the dense sequence `1..len(evaluations)`, and `top_candidates`
is the first `top_k` elements of `evaluations`. -/
theorem C3_dense_ranks_top_k :
    ∀ (strat : EvaluationStrategy)
      (dimRes : List (EvaluationDimension × List ResultEntry))
      (cands : List Candidate) (analysis : LlmAnalysis)
      (current : EvaluationResult) (refi : RefinementRequest) (llm : RefinementReply),
      ((buildEvaluationResult strat (computeWeightedScores strat dimRes cands)
            analysis).evaluations.map (fun e => e.rank) =
          List.range' 1 (buildEvaluationResult strat
            (computeWeightedScores strat dimRes cands) analysis).evaluations.length ∧
        (buildEvaluationResult strat (computeWeightedScores strat dimRes cands)
            analysis).top_candidates =
          (buildEvaluationResult strat (computeWeightedScores strat dimRes cands)
            analysis).evaluations.take strat.top_k) ∧
      ((basicResult strat (computeWeightedScores strat dimRes cands)).evaluations.map
          (fun e => e.rank) =
          List.range' 1 (basicResult strat
            (computeWeightedScores strat dimRes cands)).evaluations.length ∧
        (basicResult strat (computeWeightedScores strat dimRes cands)).top_candidates =
          (basicResult strat (computeWeightedScores strat dimRes cands)).evaluations.take
            strat.top_k) ∧
      ((applyRefinement current refi llm).evaluations.map (fun e => e.rank) =
          List.range' 1 (applyRefinement current refi llm).evaluations.length ∧
        (applyRefinement current refi llm).top_candidates =
          (applyRefinement current refi llm).evaluations.take current.strategy.top_k) := by
  intro strat dimRes cands analysis current refi llm
  refine ⟨⟨?_, rfl⟩, ⟨?_, rfl⟩, ⟨?_, rfl⟩⟩
  · exact rank_dense_sorted_map strat dimRes cands analysis.top_candidates_analysis
  · exact rank_dense_sorted_map strat dimRes cands []
  · exact rank_dense_applyRefinement current refi llm

attribute [local semireducible] Rat.add Rat.mul Rat.inv Rat.sub in
/-- C4 counterexample: candidate A is the only input candidate and no
dimension produced a score for it (its dimension's result list is
empty); the claim says A still appears in the aggregated evaluations
with final score 0, but the aggregation output is empty — a candidate
absent from every dimension's result list is dropped. -/
theorem C4_dropped_candidate_counterexample :
    ((aggregateAndRank exampleStrategy noCoverageDimRes [candA]
        (.returned none)).result?.map
      (fun r => r.evaluations.map (fun e => e.candidate_id))) = some [] := by
  decide

/-- C4 (amended): a candidate entry recorded with zero dimension
scores gets final score 0, and a candidate id appears in the
aggregated evaluations exactly when some dimension's result list
carries an entry resolving to it — so a candidate named by no
dimension's results at all is dropped from the output rather than
listed with score 0. -/
theorem C4_coverage_amended :
    (∀ (strat : EvaluationStrategy)
      (dimRes : List (EvaluationDimension × List ResultEntry))
      (cands : List Candidate), ∀ a ∈ computeWeightedScores strat dimRes cands,
        a.dimension_scores = [] → a.final_score = 0) ∧
    (∀ (strat : EvaluationStrategy)
      (dimRes : List (EvaluationDimension × List ResultEntry))
      (cands : List Candidate) (cid0 : String),
      cid0 ∈ (basicResult strat (computeWeightedScores strat dimRes cands)).evaluations.map
          (fun e => e.candidate_id) ↔
        ∃ p ∈ dimRes, ∃ e ∈ p.2, resolveCid cands e = cid0) := by
  constructor
  · intro strat dimRes cands a ha hds
    unfold computeWeightedScores at ha
    rcases List.mem_map.mp ha with ⟨b, hb, hba⟩
    unfold scoredOf at hb
    rcases List.mem_map.mp hb with ⟨c, hc, hcb⟩
    have hds2 : c.dimension_scores = [] := by
      rw [← hds, ← hba, assignRank_dimension_scores, ← hcb, withFinal_dimension_scores]
    have htw := (emptyOk_accumulate strat dimRes cands c hc hds2).1
    have hfs : a.final_score = b.final_score := hba ▸ assignRank_final_score _ b
    rw [hfs, ← hcb]
    show (if c.total_weight > 0 then c.weighted_sum / c.total_weight else 0) = 0
    rw [htw]
    norm_num
  · intro strat dimRes cands cid0
    rw [basicResult_evaluations]
    have h1 : ((sortByScoreDesc (computeWeightedScores strat dimRes cands)).map
        (toEvaluation [])).map (fun e => e.candidate_id) =
        keysOf (sortByScoreDesc (computeWeightedScores strat dimRes cands)) := by
      rw [List.map_map]
      exact List.map_congr_left (fun c _ => toEvaluation_candidate_id [] c)
    rw [h1]
    have hperm : List.Perm (keysOf (sortByScoreDesc (computeWeightedScores strat dimRes cands)))
        (keysOf (computeWeightedScores strat dimRes cands)) :=
      (List.perm_insertionSort scoreDescBefore _).map _
    rw [hperm.mem_iff, keysOf_computeWeightedScores]
    exact mem_keysOf_accumulate strat dimRes cands cid0

attribute [local semireducible] Rat.add Rat.mul Rat.inv Rat.sub in
/-- Witness for C4 (amended): a candidate A entry recorded with a
`None` score gets final score 0 yet appears in the output. -/
theorem C4_coverage_amended_witness :
    (computeWeightedScores exampleStrategy nullScoreDimRes [candA]).headI.final_score = 0 ∧
    "A" ∈ (basicResult exampleStrategy
        (computeWeightedScores exampleStrategy nullScoreDimRes [candA])).evaluations.map
        (fun e => e.candidate_id) :=
  ⟨C4_coverage_amended.1 exampleStrategy nullScoreDimRes [candA]
      (computeWeightedScores exampleStrategy nullScoreDimRes [candA]).headI
      (by decide) (by decide),
    (C4_coverage_amended.2 exampleStrategy nullScoreDimRes [candA] "A").mpr (by decide)⟩

attribute [local semireducible] Rat.add Rat.mul Rat.inv Rat.sub in
/-- C5: the exclude refinement removes exactly the candidates named by
the oracle's `excluded_candidates` plus the request's `candidate_id`
(comparing by candidate id, stored dimension scores untouched — no
re-scoring), re-assigns dense ranks `1..M` over the remainder, and
re-slices `top_candidates`; excluding A from the two-candidate
scenario leaves only B, at rank 1. -/
theorem C5_exclude_refinement :
    (∀ (current : EvaluationResult) (cid reason : String) (llm : RefinementReply),
      List.Perm
        ((applyRefinement current (RefinementRequest.exclude_candidate cid reason)
            llm).evaluations.map (fun e => (e.candidate_id, e.dimension_scores)))
        ((current.evaluations.filter (fun e =>
            ¬ (excludedIds (RefinementRequest.exclude_candidate cid reason) llm).contains
              e.candidate_id)).map (fun e => (e.candidate_id, e.dimension_scores))) ∧
      (applyRefinement current (RefinementRequest.exclude_candidate cid reason)
          llm).evaluations.map (fun e => e.rank) =
        List.range' 1 (applyRefinement current (RefinementRequest.exclude_candidate cid reason)
          llm).evaluations.length ∧
      (applyRefinement current (RefinementRequest.exclude_candidate cid reason)
          llm).top_candidates =
        (applyRefinement current (RefinementRequest.exclude_candidate cid reason)
          llm).evaluations.take current.strategy.top_k) ∧
    (applyRefinement exampleResult (RefinementRequest.exclude_candidate "A" "")
        emptyReply).evaluations.map (fun e => (e.candidate_id, e.rank)) = [("B", 1)] := by
  constructor
  · intro current cid reason llm
    refine ⟨?_, rank_dense_applyRefinement current _ llm, applyRefinement_top current _ llm⟩
    rw [applyRefinement_evaluations]
    rw [if_pos (show (RefinementRequest.exclude_candidate cid reason).action = "exclude" from rfl)]
    set g : CandidateEvaluation → String × List DimensionScore :=
      fun e => (e.candidate_id, e.dimension_scores) with hg
    have h1 : (reRank ((((current.evaluations.filter (fun e =>
        ¬ (excludedIds (RefinementRequest.exclude_candidate cid reason) llm).contains
          e.candidate_id)).map (applyRankInfo llm)).insertionSort rankAscBefore))).map g =
        ((((current.evaluations.filter (fun e =>
        ¬ (excludedIds (RefinementRequest.exclude_candidate cid reason) llm).contains
          e.candidate_id)).map (applyRankInfo llm)).insertionSort rankAscBefore)).map g :=
      reRankFrom_map g (fun e n => rfl) 1 _
    rw [h1]
    have h2 := (List.perm_insertionSort rankAscBefore
      ((current.evaluations.filter (fun e =>
        ¬ (excludedIds (RefinementRequest.exclude_candidate cid reason) llm).contains
          e.candidate_id)).map (applyRankInfo llm))).map g
    refine h2.trans ?_
    rw [List.map_map]
    exact List.Perm.of_eq (List.map_congr_left (fun e _ => by
      show g (applyRankInfo llm e) = g e
      rw [hg]
      simp only [applyRankInfo_candidate_id, applyRankInfo_dimension_scores]))
  · decide

attribute [local semireducible] Rat.add Rat.mul Rat.inv Rat.sub in
/-- C9 counterexample: the candidate input order is A before B, and
both candidates tie at final score 50, but the aggregated order is B
before A because B's entry comes first in the dimension's result list
— the stable tie-break follows the `candidate_scores` dict insertion
order (first occurrence in the dimension results), not original
candidate-input order as the claim states. -/
theorem C9_tiebreak_counterexample :
    exampleCands.map Candidate.key = ["A", "B"] ∧
    (basicResult tieStrategy
        (computeWeightedScores tieStrategy tieDimRes exampleCands)).evaluations.map
      (fun e => (e.candidate_id, e.final_score)) = [("B", 50), ("A", 50)] := by
  constructor
  · decide
  · decide

/-- C9 (amended): aggregated evaluations are sorted in descending
order of final score, and candidates with equal final score appear in
the order their entries were first recorded while traversing
`dimension_results` (the order of `_compute_weighted_scores`' returned
entries), not necessarily original candidate-input order; the sort is
a deterministic function of the strategy, dimension results and
candidates. -/
theorem C9_sort_stability_amended :
    ∀ (strat : EvaluationStrategy)
      (dimRes : List (EvaluationDimension × List ResultEntry))
      (cands : List Candidate) (analysis : LlmAnalysis) (s : ℚ),
      (buildEvaluationResult strat (computeWeightedScores strat dimRes cands)
          analysis).evaluations.Pairwise (fun a b => b.final_score ≤ a.final_score) ∧
      (basicResult strat
          (computeWeightedScores strat dimRes cands)).evaluations.Pairwise
        (fun a b => b.final_score ≤ a.final_score) ∧
      ((buildEvaluationResult strat (computeWeightedScores strat dimRes cands)
          analysis).evaluations.filter (fun e => e.final_score = s)).map
          (fun e => e.candidate_id) =
        ((computeWeightedScores strat dimRes cands).filter
          (fun a => a.final_score = s)).map (fun a => a.candidate_id) ∧
      ((basicResult strat (computeWeightedScores strat dimRes cands)).evaluations.filter
          (fun e => e.final_score = s)).map (fun e => e.candidate_id) =
        ((computeWeightedScores strat dimRes cands).filter
          (fun a => a.final_score = s)).map (fun a => a.candidate_id) := by
  intro strat dimRes cands analysis s
  exact ⟨sorted_evaluations _ analysis.top_candidates_analysis,
    sorted_evaluations _ [],
    stability_evaluations _ analysis.top_candidates_analysis s,
    stability_evaluations _ [] s⟩

/-- C6 counterexample: when the aggregation-analysis oracle call
raises, `aggregate_and_rank` returns a failure response carrying no
`EvaluationResult` at all — not a successful, fully ranked result with
empty narrative fields as the claim states. -/
theorem C6_raised_call_counterexample :
    aggregateAndRank exampleStrategy exampleDimRes exampleCands .raised =
      ⟨false, none, "Aggregation failed"⟩ := rfl

/-- C6 (amended): when the oracle call returns but its output is
unparsable, aggregation still returns a successful response whose
result is fully ranked (dense ranks, sorted descending, top slice)
with empty narrative fields; but when the oracle call raises,
`aggregate_and_rank` catches the exception and returns a failure
response with no result. -/
theorem C6_narrative_fallback_amended :
    ∀ (strat : EvaluationStrategy)
      (dimRes : List (EvaluationDimension × List ResultEntry))
      (cands : List Candidate),
      (aggregateAndRank strat dimRes cands (.returned none)).success = true ∧
      (aggregateAndRank strat dimRes cands (.returned none)).result? =
        some (basicResult strat (computeWeightedScores strat dimRes cands)) ∧
      (basicResult strat (computeWeightedScores strat dimRes cands)).evaluations.map
          (fun e => e.rank) =
        List.range' 1
          (basicResult strat (computeWeightedScores strat dimRes cands)).evaluations.length ∧
      (basicResult strat (computeWeightedScores strat dimRes cands)).evaluations.Pairwise
        (fun a b => b.final_score ≤ a.final_score) ∧
      (basicResult strat (computeWeightedScores strat dimRes cands)).top_candidates =
        (basicResult strat
          (computeWeightedScores strat dimRes cands)).evaluations.take strat.top_k ∧
      (basicResult strat (computeWeightedScores strat dimRes cands)).summary =
        "Evaluation completed with basic aggregation" ∧
      (basicResult strat (computeWeightedScores strat dimRes cands)).insights = [] ∧
      (basicResult strat (computeWeightedScores strat dimRes cands)).conflicts_resolved = [] ∧
      (∀ e ∈ (basicResult strat (computeWeightedScores strat dimRes cands)).evaluations,
        e.strengths = [] ∧ e.weaknesses = [] ∧ e.recommendations = [] ∧ e.flags = []) ∧
      (aggregateAndRank strat dimRes cands .raised).success = false ∧
      (aggregateAndRank strat dimRes cands .raised).result? = none := by
  intro strat dimRes cands
  refine ⟨rfl, rfl, rank_dense_sorted_map strat dimRes cands [], sorted_evaluations _ [],
    rfl, rfl, rfl, rfl, ?_, rfl, rfl⟩
  intro e he
  rw [basicResult_evaluations] at he
  rcases List.mem_map.mp he with ⟨c, _, hce⟩
  subst hce
  unfold toEvaluation
  cases h : analysisLookup [] c.candidate_id with
  | none => exact ⟨rfl, rfl, rfl, rfl⟩
  | some a => exact absurd h (by simp [analysisLookup])

attribute [local semireducible] Rat.add Rat.mul Rat.inv Rat.sub in
/-- Witness for C6 (amended): the fallback theorem applied to the
scenario inputs, with the narrative-fields conjunct evaluated at the
first output evaluation. -/
theorem C6_narrative_fallback_amended_witness :
    (aggregateAndRank exampleStrategy exampleDimRes exampleCands
        (.returned none)).success = true ∧
    (basicResult exampleStrategy exampleScores).evaluations.headI.strengths = [] :=
  ⟨(C6_narrative_fallback_amended exampleStrategy exampleDimRes exampleCands).1,
    ((C6_narrative_fallback_amended exampleStrategy exampleDimRes exampleCands).2.2.2.2.2.2.2.2.1
      (basicResult exampleStrategy exampleScores).evaluations.headI (by decide)).1⟩

theorem applyRankInfo_of_empty (llm : RefinementReply) (h : llm.new_rankings = [])
    (e : CandidateEvaluation) : applyRankInfo llm e = e := by
  unfold applyRankInfo
  rw [h]
  rfl

theorem sorted_of_ranks_range (l : List CandidateEvaluation)
    (h : l.map (fun e => e.rank) = List.range' 1 l.length) :
    List.Sorted rankAscBefore l := by
  have h1 : List.Pairwise (fun a b : ℕ => a < b) (l.map (fun e => e.rank)) := by
    rw [h]
    exact List.pairwise_lt_range' 1 l.length
  rw [List.pairwise_map] at h1
  exact h1.imp (fun hab => Nat.le_of_lt hab)

attribute [local semireducible] Rat.add Rat.mul Rat.inv Rat.sub in
/-- C2 counterexample: on the two-dimension scenario result (A at
80, B at 70, weights 0.6/0.4), the `adjust_weight` refinement path
(`adjust_dimension_weight` → `refine_results` → `_apply_refinement`)
invoked with dimension 2 and new weight 1.0 — which the claim says
recomputes final scores from the stored dimension scores under
renormalized weights (0.0, 1.0), giving A 50.0 and B 0 — actually
leaves every final score and the strategy's weights unchanged. -/
theorem C2_reweight_counterexample :
    ((adjustDimensionWeight exampleResult exDim2 1 "" (.returned (some emptyReply))).result?.map
      (fun r => (r.evaluations.map (fun e => (e.candidate_id, e.final_score)), r.strategy))) =
      some ([("A", 80), ("B", 70)], exampleStrategy) := by
  decide

/-- C2 (amended): the `adjust_weight` refinement does not copy or
reweight the strategy and does not recompute final scores from the
stored dimension scores; it only applies oracle-supplied rank changes
and clamped score adjustments and then re-sorts and re-ranks.  With an
oracle reply carrying no `new_rankings`, applied to a result whose
ranks are already dense, it returns the evaluations unchanged (same
order, scores and ranks), the strategy unchanged, and the top slice of
the unchanged evaluations; `adjust_dimension_weight` surfaces exactly
this result. -/
theorem C2_adjust_weight_amended :
    ∀ (current : EvaluationResult) (d : EvaluationDimension) (w : ℚ) (reason : String)
      (llm : RefinementReply),
      llm.new_rankings = [] →
      current.evaluations.map (fun e => e.rank) =
        List.range' 1 current.evaluations.length →
      (applyRefinement current (RefinementRequest.adjust_dimension_weight d w reason)
          llm).strategy = current.strategy ∧
      (applyRefinement current (RefinementRequest.adjust_dimension_weight d w reason)
          llm).evaluations = current.evaluations ∧
      (applyRefinement current (RefinementRequest.adjust_dimension_weight d w reason)
          llm).top_candidates = current.evaluations.take current.strategy.top_k ∧
      (adjustDimensionWeight current d w reason (.returned (some llm))).result? =
        some (applyRefinement current
          (RefinementRequest.adjust_dimension_weight d w reason) llm) := by
  intro current d w reason llm hrank hdense
  have hevals : (applyRefinement current
      (RefinementRequest.adjust_dimension_weight d w reason) llm).evaluations =
      current.evaluations := by
    rw [applyRefinement_evaluations]
    have hact : ¬ (RefinementRequest.adjust_dimension_weight d w reason).action = "exclude" := by
      show ¬ "adjust_weight" = "exclude"
      decide
    rw [if_neg hact]
    have hmap : current.evaluations.map (applyRankInfo llm) = current.evaluations := by
      rw [List.map_congr_left (fun e _ => applyRankInfo_of_empty llm hrank e), List.map_id']
    rw [hmap, (sorted_of_ranks_range current.evaluations hdense).insertionSort_eq]
    exact reRankFrom_eq_self 1 current.evaluations hdense
  refine ⟨applyRefinement_strategy current _ llm, hevals, ?_, rfl⟩
  rw [applyRefinement_top, hevals]

attribute [local semireducible] Rat.add Rat.mul Rat.inv Rat.sub in
/-- Witness for C2 (amended): the theorem applied to the scenario
result with the no-op oracle reply. -/
theorem C2_adjust_weight_amended_witness :
    (applyRefinement exampleResult
        (RefinementRequest.adjust_dimension_weight exDim2 1 "") emptyReply).strategy =
      exampleResult.strategy ∧
    (applyRefinement exampleResult
        (RefinementRequest.adjust_dimension_weight exDim2 1 "") emptyReply).evaluations =
      exampleResult.evaluations ∧
    (applyRefinement exampleResult
        (RefinementRequest.adjust_dimension_weight exDim2 1 "") emptyReply).top_candidates =
      exampleResult.evaluations.take exampleResult.strategy.top_k ∧
    (adjustDimensionWeight exampleResult exDim2 1 "" (.returned (some emptyReply))).result? =
      some (applyRefinement exampleResult
        (RefinementRequest.adjust_dimension_weight exDim2 1 "") emptyReply) :=
  C2_adjust_weight_amended exampleResult exDim2 1 "" emptyReply rfl (by decide)

/-- C7: when a dimension's scoring pass reports failure,
`run_evaluation` records the empty score list for that dimension and
keeps every dimension (in order) in the recorded results, and
aggregation still runs over the recorded coverage, producing a
successful response (here with the basic-fallback analysis path). -/
theorem C7_dimension_failure_tolerance :
    ∀ (strat : EvaluationStrategy)
      (responses : List (EvaluationDimension × ScoresResponse))
      (cands : List Candidate),
      (∀ p ∈ responses, p.2.success = false →
        (p.1, ([] : List ResultEntry)) ∈ recordDimensionResults responses) ∧
      (recordDimensionResults responses).map Prod.fst = responses.map Prod.fst ∧
      (runEvaluation strat responses cands (.returned none)).success = true ∧
      (runEvaluation strat responses cands (.returned none)).result? =
        some (basicResult strat
          (computeWeightedScores strat (recordDimensionResults responses) cands)) := by
  intro strat responses cands
  refine ⟨?_, ?_, rfl, rfl⟩
  · intro p hp hf
    unfold recordDimensionResults
    exact List.mem_map.mpr ⟨p, hp, by rw [hf]; rfl⟩
  · unfold recordDimensionResults
    rw [List.map_map]
    exact List.map_congr_left (fun p _ => rfl)

/-- Witness for C7: the failing dimension-1 pass of `mixedResponses`
is recorded with an empty score list, the dimension list is preserved,
and aggregation returns success. -/
theorem C7_dimension_failure_tolerance_witness :
    (exDim1, ([] : List ResultEntry)) ∈ recordDimensionResults mixedResponses ∧
    (recordDimensionResults mixedResponses).map Prod.fst = mixedResponses.map Prod.fst ∧
    (runEvaluation exampleStrategy mixedResponses exampleCands
      (.returned none)).success = true :=
  ⟨(C7_dimension_failure_tolerance exampleStrategy mixedResponses exampleCands).1
      (exDim1, ⟨false, [⟨"A", "Alpha", .obj ⟨exDim1, 90, 1, [], "", []⟩⟩]⟩)
      (by decide) rfl,
    (C7_dimension_failure_tolerance exampleStrategy mixedResponses exampleCands).2.1,
    (C7_dimension_failure_tolerance exampleStrategy mixedResponses exampleCands).2.2.1⟩

theorem buildDimensionsStep_invalid (acc : List DimensionWeight) (e : RawDimEntry)
    (h : validRawEntry e = false) : buildDimensionsStep acc e = acc := by
  unfold buildDimensionsStep
  cases hd : e.dimension?.bind dimensionFromString? with
  | none => cases hw : e.weight? <;> rfl
  | some d =>
    cases hw : e.weight? with
    | none => rfl
    | some w =>
      exfalso
      unfold validRawEntry at h
      rw [hd, hw] at h
      simp at h

theorem buildDimensions_filter (es : List RawDimEntry) :
    buildDimensions es = buildDimensions (es.filter validRawEntry) := by
  unfold buildDimensions
  suffices h : ∀ (es2 : List RawDimEntry) (acc : List DimensionWeight),
      es2.foldl buildDimensionsStep acc =
        (es2.filter validRawEntry).foldl buildDimensionsStep acc from h es []
  intro es2
  induction es2 with
  | nil => intro acc; rfl
  | cons e es2 ih =>
    intro acc
    cases hv : validRawEntry e with
    | true =>
      rw [List.filter_cons_of_pos (by rw [hv]), List.foldl_cons, List.foldl_cons, ih]
    | false =>
      rw [List.filter_cons_of_neg (by simp [hv]), List.foldl_cons,
        buildDimensionsStep_invalid acc e hv, ih]

theorem weightTotal_map (g : DimensionWeight → ℚ) (dims : List DimensionWeight) :
    weightTotal (dims.map (fun d => { d with weight := g d })) = (dims.map g).sum := by
  unfold weightTotal
  rw [List.map_map]
  congr 1

theorem weightTotal_normalize (dims : List DimensionWeight)
    (h0 : 0 < weightTotal dims) (h1 : |weightTotal dims - 1| > 1/100) :
    weightTotal (normalizeWeights dims) = 1 := by
  have hnw : normalizeWeights dims =
      dims.map (fun d => { d with weight := d.weight / weightTotal dims }) := by
    show (if weightTotal dims > 0 ∧ |weightTotal dims - 1| > 1/100 then
        dims.map (fun d => { d with weight := d.weight / weightTotal dims })
      else dims) = _
    exact if_pos ⟨h0, h1⟩
  rw [hnw, weightTotal_map (fun d => d.weight / weightTotal dims) dims]
  have h3 : dims.map (fun d => d.weight / weightTotal dims) =
      dims.map (fun d => d.weight * (weightTotal dims)⁻¹) :=
    List.map_congr_left (fun d _ => by rw [div_eq_mul_inv])
  rw [h3, List.sum_map_mul_right]
  show weightTotal dims * (weightTotal dims)⁻¹ = 1
  exact mul_inv_cancel₀ (ne_of_gt h0)

/-- C8: building a strategy from planner-oracle output drops weight
entries naming a dimension outside the enumeration (or with a missing
or unconvertible field) without failing; when the remaining raw
weights total a positive sum off `1.0` by more than `0.01`, each
weight is divided by the total so the resulting weights sum to exactly
`1.0`; `top_k` is `min(5, total_candidates)`; and the strategy starts
unconfirmed. -/
theorem C8_strategy_normalization :
    ∀ (parsed : PlannerParsed) (n : ℕ),
      (buildStrategyFromResponse parsed n).top_k = min 5 n ∧
      (buildStrategyFromResponse parsed n).confirmed_by_user = false ∧
      buildDimensions parsed.dimensions =
        buildDimensions (parsed.dimensions.filter validRawEntry) ∧
      (0 < weightTotal (buildDimensions parsed.dimensions) →
        |weightTotal (buildDimensions parsed.dimensions) - 1| > 1/100 →
        weightTotal (buildStrategyFromResponse parsed n).dimensions = 1) := by
  intro parsed n
  refine ⟨rfl, rfl, buildDimensions_filter parsed.dimensions, ?_⟩
  intro h0 h1
  exact weightTotal_normalize (buildDimensions parsed.dimensions) h0 h1

attribute [local semireducible] Rat.add Rat.mul Rat.inv Rat.sub in
/-- Witness for C8: the planner payload with one out-of-enumeration
dimension and raw weights totalling 2 yields a strategy with weights
summing to exactly 1, `top_k = min 5 7`, unconfirmed. -/
theorem C8_strategy_normalization_witness :
    (buildStrategyFromResponse examplePlannerParsed 7).top_k = min 5 7 ∧
    (buildStrategyFromResponse examplePlannerParsed 7).confirmed_by_user = false ∧
    weightTotal (buildStrategyFromResponse examplePlannerParsed 7).dimensions = 1 :=
  ⟨(C8_strategy_normalization examplePlannerParsed 7).1,
    (C8_strategy_normalization examplePlannerParsed 7).2.1,
    (C8_strategy_normalization examplePlannerParsed 7).2.2.2 (by decide) (by decide)⟩

theorem applyRankInfo_of_some (llm : RefinementReply) (e : CandidateEvaluation)
    (r : RankInfo) (h : rankLookup llm.new_rankings e.candidate_id = some r) :
    applyRankInfo llm e =
      { e with
        rank := r.new_rank?.getD e.rank
        final_score := max 0 (min 100 (e.final_score + r.score_adjustment?.getD 0)) } := by
  unfold applyRankInfo
  rw [h]

/-- C10: when the refinement oracle supplies a ranking entry (with a
score adjustment) for a candidate of the result that survives any
exclusion, the refined result contains an entry for that candidate
whose final score is the old score plus the adjustment clamped into
`[0, 100]` — in particular the stored final score can never be pushed
below 0 or above 100, however large or negative the adjustment. -/
theorem C10_score_adjustment_clamped :
    ∀ (current : EvaluationResult) (refi : RefinementRequest) (llm : RefinementReply)
      (e : CandidateEvaluation) (r : RankInfo),
      e ∈ current.evaluations →
      rankLookup llm.new_rankings e.candidate_id = some r →
      (refi.action = "exclude" →
        (excludedIds refi llm).contains e.candidate_id = false) →
      ∃ e2 ∈ (applyRefinement current refi llm).evaluations,
        e2.candidate_id = e.candidate_id ∧
        e2.final_score = max 0 (min 100 (e.final_score + r.score_adjustment?.getD 0)) ∧
        0 ≤ e2.final_score ∧ e2.final_score ≤ 100 := by
  intro current refi llm e r he hr hkeep
  have he1 : e ∈ (if refi.action = "exclude" then
      current.evaluations.filter
        (fun x => ¬ (excludedIds refi llm).contains x.candidate_id)
    else current.evaluations) := by
    by_cases hact : refi.action = "exclude"
    · rw [if_pos hact]
      refine List.mem_filter.mpr ⟨he, ?_⟩
      have hcon := hkeep hact
      simp only [decide_eq_true_eq]
      rw [hcon]
      simp
    · rw [if_neg hact]; exact he
  have he3 : applyRankInfo llm e ∈
      ((if refi.action = "exclude" then
        current.evaluations.filter
          (fun x => ¬ (excludedIds refi llm).contains x.candidate_id)
      else current.evaluations).map (applyRankInfo llm)).insertionSort rankAscBefore :=
    (List.mem_insertionSort rankAscBefore).mpr (List.mem_map_of_mem _ he1)
  have hmem : (fun x : CandidateEvaluation => (x.candidate_id, x.final_score))
      (applyRankInfo llm e) ∈
      (reRankFrom 1 (((if refi.action = "exclude" then
        current.evaluations.filter
          (fun x => ¬ (excludedIds refi llm).contains x.candidate_id)
      else current.evaluations).map (applyRankInfo llm)).insertionSort rankAscBefore)).map
        (fun x : CandidateEvaluation => (x.candidate_id, x.final_score)) := by
    rw [reRankFrom_map (fun x : CandidateEvaluation => (x.candidate_id, x.final_score))
      (fun x n => rfl) 1]
    exact List.mem_map_of_mem _ he3
  rcases List.mem_map.mp hmem with ⟨e2, he2mem, hge⟩
  have hbounds1 : (0 : ℚ) ≤ max 0 (min 100 (e.final_score + r.score_adjustment?.getD 0)) :=
    le_max_left 0 _
  have hbounds2 : max 0 (min 100 (e.final_score + r.score_adjustment?.getD 0)) ≤ 100 :=
    max_le (by norm_num) (min_le_left _ _)
  have hu : (applyRankInfo llm e).candidate_id = e.candidate_id :=
    applyRankInfo_candidate_id llm e
  have hufs : (applyRankInfo llm e).final_score =
      max 0 (min 100 (e.final_score + r.score_adjustment?.getD 0)) := by
    rw [applyRankInfo_of_some llm e r hr]
  simp only [Prod.mk.injEq] at hge
  have hpair := hge
  refine ⟨e2, by rw [applyRefinement_evaluations]; exact he2mem,
    ?_, ?_, ?_, ?_⟩
  · rw [hpair.1, hu]
  · rw [hpair.2, hufs]
  · rw [hpair.2, hufs]; exact hbounds1
  · rw [hpair.2, hufs]; exact hbounds2

attribute [local semireducible] Rat.add Rat.mul Rat.inv Rat.sub in
/-- Witness for C10: a `+1000` adjustment to candidate A (at final
score 80) is clamped to 100 in the refined result. -/
theorem C10_score_adjustment_clamped_witness :
    ∃ e2 ∈ (applyRefinement exampleResult
        (RefinementRequest.adjust_dimension_weight exDim2 1 "") bigAdjustReply).evaluations,
      e2.candidate_id = exampleResult.evaluations.headI.candidate_id ∧
      e2.final_score = max 0 (min 100 (exampleResult.evaluations.headI.final_score +
        ((⟨"A", none, some 1000⟩ : RankInfo).score_adjustment?.getD 0))) ∧
      0 ≤ e2.final_score ∧ e2.final_score ≤ 100 :=
  C10_score_adjustment_clamped exampleResult
    (RefinementRequest.adjust_dimension_weight exDim2 1 "") bigAdjustReply
    exampleResult.evaluations.headI ⟨"A", none, some 1000⟩
    (by decide) (by decide) (by decide)

end PartnerScope

